import Mathlib

/-!
Resonant music discovery: scoring, similarity and de-duplication.

A shallow embedding of the discovery module `src/discover/discover.js`:
the `UndergroundMusicDetector` scorer, the string-similarity utility
(`calculateStringSimilarity`, `levenshteinDistance`), the classifier
(`isUnofficialRelease`, `isMainstreamArtist`, `isKnownMainstreamArtist`) and
the de-duplicator (`removeDuplicateTracks`, `findSimilarTrack`).

Modelling conventions.

* A JavaScript string is a finite sequence of UTF-16 code units, so `Str` is
  `List Nat`; `.length` and `charAt` work on code units and so do the
  functions below.  `js "..."` encodes a literal.
* `String.prototype.toLowerCase` depends on the Unicode tables of the host.
  Every function that lower-cases takes the host function as the explicit
  argument `lc`; general theorems hold for every `lc`.  Concrete evaluations
  use `asciiLower`, which agrees with the host on ASCII input.
* Network lookups and `Math.random` are explicit arguments (an answer per
  artist name, a draw per call), so each function is a pure function of its
  inputs and of the answers it receives.
* Numbers that the code only adds and compares are integers or exact
  rationals.
-/

set_option autoImplicit false

namespace Resonant

/-! ## Strings -/

/-- A JavaScript string: its UTF-16 code units. -/
abbrev Str := List Nat

/-- UTF-16 encoding of one Unicode scalar value. -/
def utf16 (c : Char) : List Nat :=
  if c.toNat < 0x10000 then [c.toNat]
  else [0xD800 + (c.toNat - 0x10000) / 0x400, 0xDC00 + (c.toNat - 0x10000) % 0x400]

/-- The JavaScript string denoted by a literal. -/
def js (s : String) : Str := s.toList.flatMap utf16

/-- Lower-casing of the ASCII letters only; equal to `toLowerCase` on ASCII strings. -/
def asciiLower (s : Str) : Str :=
  s.map (fun c => if 65 ≤ c ∧ c ≤ 90 then c + 32 else c)

/-- ECMAScript `WhiteSpace` and `LineTerminator` code units, the set `trim` and `parseInt` strip. -/
def isStrWhiteSpace (c : Nat) : Bool :=
  c == 0x09 || c == 0x0A || c == 0x0B || c == 0x0C || c == 0x0D || c == 0x20 ||
  c == 0xA0 || c == 0x1680 || (0x2000 ≤ c && c ≤ 0x200A) || c == 0x2028 ||
  c == 0x2029 || c == 0x202F || c == 0x205F || c == 0x3000 || c == 0xFEFF

/-- The method `String.prototype.trim`. -/
def trim (s : Str) : Str :=
  ((s.dropWhile isStrWhiteSpace).reverse.dropWhile isStrWhiteSpace).reverse

/-- The method `s.includes(needle)`: `needle` occurs in `s` as a contiguous substring. -/
def includes : Str → Str → Bool
  | [], needle => needle.isEmpty
  | c :: rest, needle => needle.isPrefixOf (c :: rest) || includes rest needle

/-- Worker of `replaceAll`: `skip` counts the code units of a match still to be consumed. -/
def replaceAllAux (pat : Str) : Nat → Str → Str
  | _, [] => []
  | skip + 1, _ :: rest => replaceAllAux pat skip rest
  | 0, c :: rest =>
    if pat.isPrefixOf (c :: rest) then replaceAllAux pat (pat.length - 1) rest
    else c :: replaceAllAux pat 0 rest

/-- The call `s.replace(/pat/g, '')` for a literal, non-empty pattern: one left-to-right pass that
deletes the non-overlapping occurrences of `pat`. -/
def replaceAll (pat s : Str) : Str := replaceAllAux pat 0 s

/-! ## Similarity utility -/

/-- One cell of the matrix, `matrix[i][j]`, from its three neighbours. -/
def cell (c2 c1 : Nat) (diag left up : Nat) : Nat :=
  if c2 = c1 then diag else min (diag + 1) (min (left + 1) (up + 1))

/-- The inner loop `for j = 1 .. str1.length` of one row.  The second argument is the
previous row from column `j - 1` on, `left` is `matrix[i][j - 1]`; the result is the
cells `matrix[i][j ..]`. -/
def fillRow (c2 : Nat) : Str → List Nat → Nat → List Nat
  | c1 :: s1, diag :: up :: prevTail, left =>
    let v := cell c2 c1 diag left up
    v :: fillRow c2 s1 (up :: prevTail) v
  | _, _, _ => []

/-- Row `i` of the matrix from row `i - 1`: `matrix[i][0] = i`, then the inner loop. -/
def nextRow (str1 : Str) (prevRow : List Nat) (i : Nat) (c2 : Nat) : List Nat :=
  i :: fillRow c2 str1 prevRow i

/-- The outer loop `for i = 1 .. str2.length`, started at row `i - 1`. -/
def fillRows (str1 : Str) : Str → List Nat → Nat → List Nat
  | [], row, _ => row
  | c2 :: s2, row, i => fillRows str1 s2 (nextRow str1 row i c2) (i + 1)

/-- Function `levenshteinDistance(str1, str2)`: row 0 is `[0, 1, .., str1.length]`, the rows are
filled for the code units of `str2` in order, the result is `matrix[str2.length][str1.length]`,
the last cell of the last row. -/
def levenshteinDistance (str1 str2 : Str) : Nat :=
  ((fillRows str1 str2 (List.range (str1.length + 1)) 1).getLast?).getD 0

/-- Function `calculateStringSimilarity(str1, str2)` as an exact rational. -/
def calculateStringSimilarity (str1 str2 : Str) : ℚ :=
  let longer := if str1.length > str2.length then str1 else str2
  let shorter := if str1.length > str2.length then str2 else str1
  if longer.length = 0 then 1
  else ((longer.length : ℚ) - (levenshteinDistance longer shorter : ℚ)) / (longer.length : ℚ)

/-- The test `similarity > 0.9` of `findSimilarTrack` on two titles.  The similarity is a
quotient of two integers below `2^53`; for strings shorter than `2^30` code units the
double quotient exceeds the double `0.9` exactly when the exact quotient exceeds `9/10`. -/
def IsNearDuplicateTitle (title existingTitle : Str) : Prop :=
  calculateStringSimilarity title existingTitle > 9 / 10

/-- The test decided on integers: with `n` the length of the longer title and `d` the
distance, `(n - d) / n > 9 / 10` exactly when `n = 0` or `10 * d < n`. -/
instance instDecidableIsNearDuplicateTitle (title existingTitle : Str) :
    Decidable (IsNearDuplicateTitle title existingTitle) :=
  decidable_of_iff
    ((if title.length > existingTitle.length then title else existingTitle).length = 0 ∨
      10 * levenshteinDistance
          (if title.length > existingTitle.length then title else existingTitle)
          (if title.length > existingTitle.length then existingTitle else title) <
        (if title.length > existingTitle.length then title else existingTitle).length)
    (by
      unfold IsNearDuplicateTitle calculateStringSimilarity
      generalize (if title.length > existingTitle.length then title else existingTitle) = longer
      generalize (if title.length > existingTitle.length then existingTitle else title) = shorter
      by_cases h0 : longer.length = 0
      · simp only [h0, true_or, if_true, true_iff]
        norm_num
      · have hpos : (0 : ℚ) < (longer.length : ℚ) := by
          exact_mod_cast Nat.pos_of_ne_zero h0
        simp only [h0, false_or, if_false, gt_iff_lt]
        rw [lt_div_iff₀ hpos]
        constructor
        · intro h
          have h2 : ((10 * levenshteinDistance longer shorter : ℕ) : ℚ) < (longer.length : ℚ) := by
            exact_mod_cast h
          push_cast at h2
          linarith
        · intro h
          have h2 : ((10 * levenshteinDistance longer shorter : ℕ) : ℚ) < (longer.length : ℚ) := by
            push_cast
            linarith
          exact_mod_cast h2)

/-! ### The recurrence behind the matrix -/

/-- The value of `matrix[i][j]` as a function of the two prefixes, both given reversed
(last code unit first): the recurrence that the loops of `levenshteinDistance` evaluate. -/
def levRec : Str → Str → Nat
  | [], r1 => r1.length
  | x2 :: r2, [] => (x2 :: r2).length
  | x2 :: r2, x1 :: r1 =>
    cell x2 x1 (levRec r2 r1) (levRec (x2 :: r2) r1) (levRec r2 (x1 :: r1))
termination_by r2 r1 => r2.length + r1.length

/-- The row of the matrix for the reversed prefix `r2` of `str2`, from the column of the
reversed prefix `drev` of `str1` on, `rest` being the remainder of `str1`. -/
def rowRec (r2 : Str) : Str → Str → List Nat
  | drev, [] => [levRec r2 drev]
  | drev, c :: rest => levRec r2 drev :: rowRec r2 (c :: drev) rest

/-! ## Underground scorer -/

/-- Value of a code unit as a digit in any radix up to 36. -/
def digitValue (c : Nat) : Option Nat :=
  if 48 ≤ c ∧ c ≤ 57 then some (c - 48)
  else if 97 ≤ c ∧ c ≤ 122 then some (c - 97 + 10)
  else if 65 ≤ c ∧ c ≤ 90 then some (c - 65 + 10)
  else none

/-- A code unit is a digit of radix `r`. -/
def isRadixDigit (r c : Nat) : Bool :=
  match digitValue c with
  | some d => decide (d < r)
  | none => false

/-- The call `parseInt(input)` with no radix argument, on the string `input` (the result of
`ToString` on the argument): leading white space is skipped, a sign is read, a `0x` or `0X`
marker selects radix 16, and the longest run of digits is read.  `none` is `NaN`.  The
value is the exact integer; the host rounds it to a double, which preserves every
comparison with the thresholds used below since rounding is monotone and the
thresholds are doubles. -/
def parseInt (input : Str) : Option Int :=
  let s0 := input.dropWhile isStrWhiteSpace
  let negative := s0.head? == some 45
  let s1 := if s0.head? == some 45 || s0.head? == some 43 then s0.tail else s0
  let hex := (js "0x").isPrefixOf s1 || (js "0X").isPrefixOf s1
  let r := if hex then 16 else 10
  let s2 := if hex then s1.drop 2 else s1
  let digits := s2.takeWhile (isRadixDigit r)
  if digits.isEmpty then none
  else
    let n : Nat := digits.foldl (fun acc c => acc * r + (digitValue c).getD 0) 0
    some (if negative then -(n : Int) else (n : Int))

/-- The five sub-scores, `breakdown` in `calculateUndergroundScore`. -/
structure ScoreBreakdown where
  listenerPoints : Int
  genrePoints : Int
  discoveryPoints : Int
  indiePoints : Int
  engagementPoints : Int
  deriving DecidableEq, Repr

/-- A track record: the fields that the scoring, classification and de-duplication code
reads or writes.  An absent (`undefined`) property is `none`.  `listeners` holds the
string that `parseInt` sees. -/
structure Track where
  title : Str
  artist : Str
  genre : Option Str := none
  listeners : Option Str := none
  description : Option Str := none
  artwork : Option Str := none
  scoreBreakdown : Option ScoreBreakdown := none
  listenerScore : Option Int := none
  genreScore : Option Int := none
  discoveryScore : Option Int := none
  indieScore : Option Int := none
  engagementScore : Option Int := none
  genreMatchScore : Option Int := none
  artistMatchScore : Option Int := none
  undergroundScore : Option Int := none
  fitsUndergroundPreference : Option Bool := none
  filtered : Option Bool := none
  deriving DecidableEq, Repr

/-- The table `this.undergroundGenres`. -/
def undergroundGenres : List Str :=
  [js "experimental", js "ambient", js "idm", js "drone", js "noise", js "post-rock",
   js "math rock", js "shoegaze", js "dream pop", js "lo-fi", js "chillwave",
   js "vaporwave", js "future bass", js "trap", js "drill", js "grime"]

/-- The table `moderateGenres` in `analyzeGenre`. -/
def moderateGenres : List Str :=
  [js "indie", js "alternative", js "electronic", js "hip hop", js "punk"]

/-- The table `mainstreamGenres` in `analyzeGenre`. -/
def mainstreamGenres : List Str :=
  [js "pop", js "rock", js "country", js "r&b"]

/-- Function `analyzeGenre(genre)`; `!genre` holds for a missing and for an empty genre. -/
def analyzeGenre (lc : Str → Str) (genre : Option Str) : Int :=
  match genre with
  | none => 0
  | some g =>
    if g.isEmpty then 0
    else
      let genreLower := lc g
      if undergroundGenres.any (fun undergroundGenre => includes genreLower undergroundGenre) then 25
      else if moderateGenres.any (fun modGenre => includes genreLower modGenre) then 15
      else if mainstreamGenres.any (fun mainGenre => includes genreLower mainGenre) then -10
      else 0

/-- Function `calculateDiscoveryBonus(track)`; `discoveryDays` is the value that
`Math.floor(Math.random() * 365)` takes in this call. -/
def calculateDiscoveryBonus (discoveryDays : Nat) : Int :=
  if discoveryDays < 30 then 20
  else if discoveryDays < 90 then 15
  else if discoveryDays < 180 then 10
  else 0

/-- The expression `parseInt(track.listeners) || 0`: `NaN` and `0` both give `0`. -/
def listenerCount (track : Track) : Int :=
  match track.listeners with
  | none => 0
  | some s => (parseInt s).getD 0

/-- Function `detectIndependentLabel(track)`. -/
def detectIndependentLabel (track : Track) : Int :=
  let listeners := listenerCount track
  if listeners < 10000 then 15
  else if listeners < 50000 then 10
  else if listeners < 100000 then 5
  else 0

/-- Function `analyzeEngagement(track)`. -/
def analyzeEngagement (track : Track) : Int :=
  let hasDescription : Bool :=
    match track.description with
    | none => false
    | some d => !d.isEmpty && decide (d.length > 100)
  let hasArtwork : Bool :=
    match track.artwork with
    | none => false
    | some a => !a.isEmpty && !includes a (js "picsum")
  (if hasDescription then 5 else 0) + (if hasArtwork then 5 else 0)

/-- The listener band of `calculateUndergroundScore`, `breakdown.listenerPoints`. -/
def listenerPoints (listeners : Int) : Int :=
  if listeners < 10000 then 30
  else if listeners < 50000 then 20
  else if listeners < 100000 then 10
  else if listeners < 500000 then 5
  else 0

/-- The `breakdown` record that `calculateUndergroundScore(track)` builds. -/
def scoreBreakdownOf (lc : Str → Str) (discoveryDays : Nat) (track : Track) : ScoreBreakdown :=
  { listenerPoints := listenerPoints (listenerCount track)
    genrePoints := analyzeGenre lc track.genre
    discoveryPoints := calculateDiscoveryBonus discoveryDays
    indiePoints := detectIndependentLabel track
    engagementPoints := analyzeEngagement track }

/-- Function `calculateUndergroundScore(track)`: the returned score and the track as the call
leaves it (breakdown and the five copies stored on it). -/
def calculateUndergroundScore (lc : Str → Str) (discoveryDays : Nat) (track : Track) :
    Int × Track :=
  let breakdown := scoreBreakdownOf lc discoveryDays track
  let score := breakdown.listenerPoints + breakdown.genrePoints + breakdown.discoveryPoints +
    breakdown.indiePoints + breakdown.engagementPoints
  (max 0 (min 100 score),
   { track with
     scoreBreakdown := some breakdown
     listenerScore := some breakdown.listenerPoints
     genreScore := some breakdown.genrePoints
     discoveryScore := some breakdown.discoveryPoints
     indieScore := some breakdown.indiePoints
     engagementScore := some breakdown.engagementPoints })

/-! ## Mainstream / unofficial classifier -/

/-- The `artist` object of a Last.fm `artist.getinfo` answer, as far as it is read:
`stats?.listeners`, `stats?.playcount` and the names in `tags.tag`. -/
structure ArtistInfo where
  listeners : Option Str := none
  playcount : Option Str := none
  tags : Option (List Str) := none
  deriving DecidableEq, Repr

/-- Outcome of one `fetch` followed by `response.json()`: the request or the decoding
threw, the response was not `ok`, or a body was decoded. -/
inductive Fetched (α : Type) where
  | threw : Fetched α
  | notOk : Fetched α
  | ok (body : α) : Fetched α
  deriving DecidableEq, Repr

/-- The answers of the `artist.getinfo` endpoint, one per artist name; the body is
`data.artist`, `none` when the property is absent. -/
abbrev ArtistLookup := Str → Fetched (Option ArtistInfo)

/-- Function `getArtistInfo(artistName)`: `null` for a response that is not `ok` and for every
thrown error, else `data.artist`. -/
def getArtistInfo (lookup : ArtistLookup) (artistName : Str) : Option ArtistInfo :=
  match lookup artistName with
  | .threw => none
  | .notOk => none
  | .ok body => body

/-- The expression `parseInt(x || '0')` compared with a threshold by `>=`; `NaN >= t` is false. -/
def statAtLeast (field : Option Str) (threshold : Int) : Bool :=
  let text : Str :=
    match field with
    | none => js "0"
    | some s => if s.isEmpty then js "0" else s
  match parseInt text with
  | none => false
  | some n => decide (n ≥ threshold)

/-- Function `isMainstreamArtist(artist)`.  The body is one `try` whose `catch` returns `false`, and
`getArtistInfo` never throws, so the promise always resolves: the result is `Except.ok`. -/
def isMainstreamArtist (lookup : ArtistLookup) (artist : Str) : Except Unit Bool :=
  match getArtistInfo lookup artist with
  | none => .ok false
  | some artistInfo =>
    let isMainstreamByListeners := statAtLeast artistInfo.listeners 1000000
    let isMainstreamByPlaycount := statAtLeast artistInfo.playcount 10000000
    .ok (isMainstreamByListeners || isMainstreamByPlaycount)

/-- The table `topMainstreamArtists` in `isKnownMainstreamArtist`. -/
def topMainstreamArtists : List Str :=
  [js "taylor swift", js "drake", js "ariana grande", js "justin bieber", js "billie eilish",
   js "dua lipa", js "the weeknd", js "harry styles", js "olivia rodrigo", js "bruno mars",
   js "ed sheeran", js "post malone", js "doja cat", js "megan thee stallion", js "lil nas x",
   js "kendrick lamar", js "j. cole", js "travis scott", js "lil wayne", js "kanye west",
   js "jay-z", js "eminem", js "cardi b", js "nicki minaj",
   js "imagine dragons", js "maroon 5", js "coldplay", js "twenty one pilots",
   js "daft punk", js "deadmau5", js "skrillex", js "diplo", js "calvin harris",
   js "beyoncé", js "rihanna", js "chris brown", js "usher",
   js "madonna", js "michael jackson", js "prince", js "whitney houston", js "mariah carey",
   js "the beatles", js "rolling stones", js "led zeppelin", js "queen"]

/-- Function `isKnownMainstreamArtist(artist)`. -/
def isKnownMainstreamArtist (lc : Str → Str) (artist : Str) : Bool :=
  let artistLower := trim (lc artist)
  if topMainstreamArtists.contains artistLower then true
  else topMainstreamArtists.any (fun mainstreamArtist =>
    includes artistLower mainstreamArtist || includes mainstreamArtist artistLower)

/-- The table `unofficialIndicators` in `isUnofficialRelease`. -/
def unofficialIndicators : List Str :=
  [js "cover", js "unofficial", js "fan made", js "tribute", js "karaoke",
   js "instrumental", js "remix", js "bootleg", js "leak", js "unreleased",
   js "demo", js "acoustic", js "live", js "version", js "edit", js "mix",
   js "reprise", js "interlude", js "outro", js "intro", js "skit",
   js "freestyle", js "remastered", js "deluxe", js "bonus", js "extra",
   js "b-side", js "single", js "album", js "ep", js "mixtape",
   js "soundtrack", js "ost", js "theme", js "opening", js "ending",
   js "credit", js "trailer", js "teaser", js "promo", js "ad",
   js "commercial", js "tv", js "movie", js "film", js "documentary",
   js "interview", js "podcast", js "radio", js "stream", js "live stream"]

/-- The words `w` of the `coverPatterns`, each standing for the regular expression
`/\(.*w.*\)/i`. -/
def coverPatternWords : List Str :=
  [js "cover", js "tribute", js "karaoke", js "instrumental", js "remix", js "bootleg",
   js "leak", js "unreleased", js "demo", js "acoustic", js "live", js "version",
   js "edit", js "mix"]

/-- Line terminators, the code units that `.` does not match. -/
def isLineTerminator (c : Nat) : Bool :=
  c == 0x0A || c == 0x0D || c == 0x2028 || c == 0x2029

/-- The class `\w`. -/
def isWordChar (c : Nat) : Bool :=
  (48 ≤ c && c ≤ 57) || (65 ≤ c && c ≤ 90) || (97 ≤ c && c ≤ 122) || c == 95

/-- The class `\d`. -/
def isDigit (c : Nat) : Bool := 48 ≤ c && c ≤ 57

/-- A pattern character `p` matches the code unit `c` under the flag `i` (no flag `u`): the
two have the same canonical form; for an ASCII pattern character this is `c = p` or, for
a letter, the same letter in the other case. -/
def ciMatch (p c : Nat) : Bool :=
  c == p || (97 ≤ p && p ≤ 122 && c + 32 == p) || (65 ≤ p && p ≤ 90 && c == p + 32)

/-- The literal `word` matches a prefix of `s` under the flag `i`. -/
def ciPrefix : Str → Str → Bool
  | [], _ => true
  | _ :: _, [] => false
  | p :: word, c :: s => ciMatch p c && ciPrefix word s

/-- The pattern `.*` followed by the continuation `k`: `k` holds at the current position
or after skipping any number of code units that are not line terminators. -/
def dotStarThen (k : Str → Bool) : Str → Bool
  | [] => k []
  | c :: rest => k (c :: rest) || (!isLineTerminator c && dotStarThen k rest)

/-- The test `/\(.*word.*\)/i.test(s)`. -/
def matchesParenPattern (word : Str) : Str → Bool
  | [] => false
  | c :: rest =>
    (c == 40 && dotStarThen (fun u =>
        ciPrefix word u && dotStarThen (fun v => v.head? == some 41) (u.drop word.length)) rest)
      || matchesParenPattern word rest

/-- The assertion `\b` between the code unit before the position and the one after it. -/
def wordBoundary (before after : Option Nat) : Bool :=
  (before.any isWordChar) != (after.any isWordChar)

/-- Worker of `matchesWordPattern`; `before` is the code unit before the position. -/
def matchesWordPatternAux (alts : List Str) : Option Nat → Str → Bool
  | _, [] => false
  | before, c :: rest =>
    (wordBoundary before (some c) && alts.any (fun a =>
        ciPrefix a (c :: rest) &&
          wordBoundary ((c :: rest).take a.length).getLast? ((c :: rest).drop a.length).head?))
      || matchesWordPatternAux alts (some c) rest

/-- The test `/\b(a1|a2|..)\b/i.test(s)` for literal, non-empty alternatives. -/
def matchesWordPattern (alts : List Str) (s : Str) : Bool :=
  matchesWordPatternAux alts none s

/-- Worker of `matchesYearPattern`; `before` is the code unit before the position. -/
def matchesYearPatternAux : Option Nat → Str → Bool
  | _, [] => false
  | before, c :: rest =>
    (wordBoundary before (some c) &&
        (List.range ((c :: rest).length + 1)).any (fun k =>
          decide (4 ≤ k) && decide (k ≤ ((c :: rest).takeWhile isDigit).length) &&
            wordBoundary ((c :: rest).take k).getLast? ((c :: rest).drop k).head?))
      || matchesYearPatternAux (some c) rest

/-- The test `/\b\d{4,}\b/.test(s)`: `k` digits, `k ≥ 4`, between two word boundaries. -/
def matchesYearPattern (s : Str) : Bool := matchesYearPatternAux none s

/-- The test `/^[a-z0-9_]+$/.test(s)`. -/
def matchesUsernamePattern (s : Str) : Bool :=
  !s.isEmpty && s.all (fun c => (97 ≤ c && c ≤ 122) || (48 ≤ c && c ≤ 57) || c == 95)

/-- The table `suspiciousArtistPatterns` in `isUnofficialRelease`, tested in order. -/
def matchesSuspiciousArtist (artist : Str) : Bool :=
  matchesWordPattern [js "user", js "upload", js "channel", js "fan", js "made", js "created",
      js "uploaded", js "posted", js "shared"] artist
    || matchesYearPattern artist
    || matchesWordPattern [js "official", js "unofficial", js "cover", js "remix", js "tribute",
      js "karaoke", js "instrumental"] artist
    || matchesUsernamePattern artist
    || matchesWordPattern [js "unknown", js "anonymous", js "various", js "various artists"] artist

/-- Steps 2 to 4 of `isUnofficialRelease`: indicator words in the lower-cased title, the
parenthetical patterns on the raw title, the uploader patterns on the raw artist name. -/
def hasUnofficialMarks (lc : Str → Str) (artist title : Str) : Bool :=
  let titleLower := lc title
  if unofficialIndicators.any (fun indicator => includes titleLower indicator) then true
  else if coverPatternWords.any (fun word => matchesParenPattern word title) then true
  else matchesSuspiciousArtist artist

/-- Function `isUnofficialRelease(artist, title)`. -/
def isUnofficialRelease (lc : Str → Str) (lookup : ArtistLookup) (artist title : Str) : Bool :=
  match isMainstreamArtist lookup artist with
  | .ok true => true
  | .ok false => hasUnofficialMarks lc artist title
  | .error _ =>
    if isKnownMainstreamArtist lc artist then true
    else hasUnofficialMarks lc artist title

/-! ## De-duplicator -/

/-- A value of the map `seenTracks`. -/
structure SeenEntry where
  artist : Str
  title : Str
  originalTrack : Track
  deriving DecidableEq, Repr

/-- The map `seenTracks`: its entries in insertion order, the order of iteration. -/
abbrev SeenMap := List (Str × SeenEntry)

/-- The call `seenTracks.has(key)`. -/
def SeenMap.has (seen : SeenMap) (key : Str) : Bool :=
  seen.any (fun e => e.1 == key)

/-- The call `seenTracks.set(key, value)`: an existing key keeps its place, a new key goes last. -/
def SeenMap.set : SeenMap → Str → SeenEntry → SeenMap
  | [], key, value => [(key, value)]
  | (k, v) :: rest, key, value =>
    if k == key then (k, value) :: rest else (k, v) :: SeenMap.set rest key value

/-- Function `findSimilarTrack(artist, title, seenTracks)`: the key of the first entry of the same
artist whose title has similarity above `0.9`, else `null`. -/
def findSimilarTrack (artist title : Str) : SeenMap → Option Str
  | [] => none
  | (key, trackData) :: rest =>
    if trackData.artist ≠ artist then findSimilarTrack artist title rest
    else if IsNearDuplicateTitle title trackData.title then some key
    else findSimilarTrack artist title rest

/-- The lower-cased, trimmed artist name. -/
def normalizedArtist (lc : Str → Str) (track : Track) : Str := trim (lc track.artist)

/-- The lower-cased, trimmed title without the four version markers, `cleanTitle`. -/
def cleanTitle (lc : Str → Str) (track : Track) : Str :=
  trim (replaceAll (js "(music video)") (replaceAll (js "(official audio)")
    (replaceAll (js "(lyric video)") (replaceAll (js "(official video)")
      (trim (lc track.title))))))

/-- The map key of a track, `uniqueKey`. -/
def uniqueKey (lc : Str → Str) (track : Track) : Str :=
  normalizedArtist lc track ++ js "|" ++ cleanTitle lc track

/-- Truthiness of the result of `findSimilarTrack`: `null` and the empty string are falsy. -/
def isTruthy : Option Str → Bool
  | none => false
  | some k => !k.isEmpty

/-- The loop of `removeDuplicateTracks` over the remaining tracks, from the state
`seenTracks`, `cleanedTracks`. -/
def removeDuplicateLoop (lc : Str → Str) (lookup : ArtistLookup) :
    List Track → SeenMap → List Track → List Track
  | [], _, cleanedTracks => cleanedTracks
  | track :: rest, seenTracks, cleanedTracks =>
    if seenTracks.has (uniqueKey lc track) then
      removeDuplicateLoop lc lookup rest seenTracks cleanedTracks
    else if isUnofficialRelease lc lookup track.artist track.title then
      removeDuplicateLoop lc lookup rest seenTracks cleanedTracks
    else if isTruthy (findSimilarTrack (normalizedArtist lc track) (cleanTitle lc track)
        seenTracks) then
      removeDuplicateLoop lc lookup rest seenTracks cleanedTracks
    else
      removeDuplicateLoop lc lookup rest
        (seenTracks.set (uniqueKey lc track)
          { artist := normalizedArtist lc track, title := cleanTitle lc track,
            originalTrack := track })
        (cleanedTracks ++ [track])

/-- Function `removeDuplicateTracks(tracks)`. -/
def removeDuplicateTracks (lc : Str → Str) (lookup : ArtistLookup) (tracks : List Track) :
    List Track :=
  removeDuplicateLoop lc lookup tracks [] []

/-- The three tests that make `removeDuplicateTracks` skip a track in the state `seenTracks`. -/
def skipsTrack (lc : Str → Str) (lookup : ArtistLookup) (seenTracks : SeenMap)
    (track : Track) : Bool :=
  seenTracks.has (uniqueKey lc track) ||
    isUnofficialRelease lc lookup track.artist track.title ||
    isTruthy (findSimilarTrack (normalizedArtist lc track) (cleanTitle lc track) seenTracks)

/-- The map after an accepted track is recorded. -/
def recordTrack (lc : Str → Str) (seenTracks : SeenMap) (track : Track) : SeenMap :=
  seenTracks.set (uniqueKey lc track)
    { artist := normalizedArtist lc track, title := cleanTitle lc track,
      originalTrack := track }

/-- A track by "Burial" with the given title, used in concrete evaluations. -/
def burial (title : String) : Track := { artist := js "Burial", title := js title }

/-! ## Host sort and slice -/

/-- The method `Array.prototype.sort(compareFn)` for a consistent comparator: the sort is
stable and puts `a` before `b` when `compareFn(a, b) < 0`; every stable sort gives the
same result for such a comparator, here insertion sort. -/
def arraySort {α : Type} (compareFn : α → α → Int) (items : List α) : List α :=
  items.insertionSort (fun a b => compareFn a b ≤ 0)

/-- The method `Array.prototype.slice(start, end)` for integer arguments: a negative index
counts from the end, both indices are clamped to `[0, length]`. -/
def arraySlice {α : Type} (items : List α) (start stop : Int) : List α :=
  let len : Int := items.length
  let k := if start < 0 then max (len + start) 0 else min start len
  let final := if stop < 0 then max (len + stop) 0 else min stop len
  (items.drop k.toNat).take (final - k).toNat

/-- The method `s.split(',')`: the pieces between the commas, one more than there are
commas. -/
def splitComma : Str → List Str
  | [] => [[]]
  | c :: rest =>
    if c = 44 then [] :: splitComma rest
    else
      match splitComma rest with
      | [] => [[c]]
      | piece :: pieces => (c :: piece) :: pieces

/-! ## Derived operations of the scorer -/

/-- Function `sortByUndergroundScore(tracks)`.  Each comparison scores both tracks anew;
`draw` gives the discovery draw used for a track, the same in every comparison, which makes
the comparator consistent.  The comparator also stores the breakdown on the tracks it
scores; these writes touch no field that scoring reads and are left out, so the result holds
the input tracks in their new order. -/
def sortByUndergroundScore (lc : Str → Str) (draw : Track → Nat) (tracks : List Track) :
    List Track :=
  arraySort (fun a b =>
    (calculateUndergroundScore lc (draw b) b).1 - (calculateUndergroundScore lc (draw a) a).1)
    tracks

/-! ## Recommendation assembler -/

/-- The preferences object read by `applyUserPreferences`.  A missing array behaves as the
empty one; a missing `undergroundLevel` is `none`. -/
structure UserPreferences where
  favoriteGenres : List Str := []
  undergroundLevel : Option Int := none
  favoriteArtists : List Str := []
  deriving DecidableEq, Repr

/-- The array `trackGenres`: the lower-cased genre string, `''` when missing, split at the
commas, each piece trimmed. -/
def trackGenresOf (lc : Str → Str) (track : Track) : List Str :=
  (splitComma (lc (track.genre.getD []))).map trim

/-- The array `matchingGenres`.  The callback of `filter` does not use its argument `genre`:
its value is whether some favorite genre and some track genre contain one another. -/
def matchingGenres (lc : Str → Str) (favoriteGenres : List Str) (track : Track) : List Str :=
  (trackGenresOf lc track).filter (fun _genre =>
    favoriteGenres.any (fun favGenre =>
      (trackGenresOf lc track).any (fun trackGenre =>
        includes trackGenre (lc favGenre) || includes (lc favGenre) trackGenre)))

/-- Step 1 of `applyUserPreferences` on one track: `genreMatchScore` is written. -/
def scoreGenreMatch (lc : Str → Str) (favoriteGenres : List Str) (track : Track) : Track :=
  { track with
    genreMatchScore := some
      (if (matchingGenres lc favoriteGenres track).length > 0
        then ((matchingGenres lc favoriteGenres track).length : Int) * 20 else 0) }

/-- The threshold `preferences.undergroundLevel || 50`: a missing level and the level `0`
both give `50`. -/
def undergroundThreshold (preferences : UserPreferences) : Int :=
  match preferences.undergroundLevel with
  | none => 50
  | some level => if level = 0 then 50 else level

/-- The flag `fitsUndergroundPreference` for a score. -/
def fitsPreference (preferences : UserPreferences) (undergroundScore : Int) : Bool :=
  if undergroundThreshold preferences ≥ 75 then decide (undergroundScore ≥ 60)
  else if undergroundThreshold preferences ≥ 50 then decide (undergroundScore ≥ 30)
  else true

/-- Step 2 and 3 of `applyUserPreferences` on one track, with the discovery draw of its
scoring call: the score is computed and stored, a track that does not fit is flagged
`filtered`, a favorite artist gets `artistMatchScore` 30 or 5. -/
def personalizeTrack (lc : Str → Str) (preferences : UserPreferences) (discoveryDays : Nat)
    (track : Track) : Track :=
  let undergroundScore := (calculateUndergroundScore lc discoveryDays track).1
  let scored := (calculateUndergroundScore lc discoveryDays track).2
  let fitsUndergroundPreference := fitsPreference preferences undergroundScore
  let flagged := if !fitsUndergroundPreference then { scored with filtered := some true }
    else scored
  let isFavoriteArtist := preferences.favoriteArtists.any (fun favArtist =>
    lc favArtist == lc track.artist)
  let boosted :=
    if preferences.favoriteArtists.length > 0 then
      if isFavoriteArtist && fitsUndergroundPreference then
        { flagged with artistMatchScore := some 30 }
      else if isFavoriteArtist && !fitsUndergroundPreference then
        { flagged with artistMatchScore := some 5 }
      else flagged
    else flagged
  { boosted with
    undergroundScore := some undergroundScore
    fitsUndergroundPreference := some fitsUndergroundPreference }

/-- A `map` whose callback draws once per element: element `i` of the list gets the draw
`draws (first + i)`. -/
def mapWithDraws (f : Nat → Track → Track) (draws : Nat → Nat) : Nat → List Track → List Track
  | _, [] => []
  | first, track :: rest => f (draws first) track :: mapWithDraws f draws (first + 1) rest

/-- The sort key `(genreMatchScore || 0) + (artistMatchScore || 0) + undergroundScore`;
`undergroundScore` is set on every track when the key is read. -/
def rankKey (track : Track) : Int :=
  track.genreMatchScore.getD 0 + track.artistMatchScore.getD 0 + track.undergroundScore.getD 0

/-- The array `finalTracks` of `applyUserPreferences` before it is sorted: every track
after steps 1 to 3, without those flagged `filtered`. -/
def personalizedTracks (lc : Str → Str) (draws : Nat → Nat) (tracks : List Track)
    (preferences : UserPreferences) : List Track :=
  let genreScored :=
    if preferences.favoriteGenres.length > 0 then
      tracks.map (scoreGenreMatch lc preferences.favoriteGenres)
    else tracks
  let filteredTracks := mapWithDraws (personalizeTrack lc preferences) draws 0 genreScored
  filteredTracks.filter (fun track => track.filtered != some true)

/-- Function `applyUserPreferences(tracks, preferences)`; `draws i` is the discovery draw
of the scoring call for the track at position `i`. -/
def applyUserPreferences (lc : Str → Str) (draws : Nat → Nat) (tracks : List Track)
    (preferences : UserPreferences) : List Track :=
  arraySort (fun a b => rankKey b - rankKey a) (personalizedTracks lc draws tracks preferences)

/-- The end of `loadRecommendations`, from the de-duplicated candidates on.
`validTrackCount` is `validTracks.length`, `fallback` the list the fallback search
assigns to `finalRecommendations` when personalization leaves nothing.  The list is
sorted by `sortByUndergroundScore`, then every track is scored once more and the score
stored as `undergroundScore`; the result is `currentRecommendations`.  `draws`, `draw`
and `lastDraws` are the discovery draws of the three rounds of scoring. -/
def loadRecommendations (lc : Str → Str) (draws : Nat → Nat) (draw : Track → Nat)
    (lastDraws : Nat → Nat) (validTrackCount : Nat) (deduplicatedTracks : List Track)
    (userPreferences : UserPreferences) (fallback : List Track) : List Track :=
  let personalizedRecommendations :=
    applyUserPreferences lc draws deduplicatedTracks userPreferences
  let finalRecommendations :=
    if personalizedRecommendations.length = 0 ∧ validTrackCount > 0 then fallback
    else personalizedRecommendations
  let sortedRecommendations := sortByUndergroundScore lc draw finalRecommendations
  mapWithDraws (fun discoveryDays track =>
      { (calculateUndergroundScore lc discoveryDays track).2 with
        undergroundScore := some (calculateUndergroundScore lc discoveryDays track).1 })
    lastDraws 0 sortedRecommendations

/-- The slice `paginatedRecommendations` that `displayRecommendations(recommendations, page)`
renders, with 20 tracks per page. -/
def displayRecommendations (recommendations : List Track) (page : Int) : List Track :=
  arraySlice recommendations ((page - 1) * 20) ((page - 1) * 20 + 20)

/-- A track with the given artist, title, genre and listener count, used in concrete
evaluations. -/
def sampleTrack (artist title genre listeners : String) : Track :=
  { artist := js artist, title := js title, genre := some (js genre),
    listeners := some (js listeners) }

/-- The genre match score in the words of the specification: 20 times the number of
favorite genres that contain, or are contained in, some genre of the track. -/
def genreMatchScoreAsSpecified (lc : Str → Str) (favoriteGenres : List Str) (track : Track) :
    Int :=
  20 * ((favoriteGenres.filter (fun favGenre =>
    (trackGenresOf lc track).any (fun trackGenre =>
      includes (lc favGenre) trackGenre || includes trackGenre (lc favGenre)))).length : Int)

/-- A track that has a description and no artwork, used in concrete evaluations. -/
def describedTrack (description : Str) : Track :=
  { artist := js "Artist", title := js "Song", description := some description }

/-- The track numbered `i`, used to tell the positions of a list apart. -/
def numberedTrack (i : Nat) : Track :=
  { artist := js "Artist", title := js "Song", listeners := some [i] }

/-- The property of `toLowerCase` used for titles: an occurrence of an ASCII string `w`
in `s` becomes an occurrence of the ASCII lower-casing of `w` in the lower-cased `s`. -/
def LowersAscii (lc : Str → Str) : Prop :=
  ∀ s w : Str, (∀ c ∈ w, c < 128) → w <:+: s → asciiLower w <:+: lc s

/-! ## Genre enrichment -/

/-- The call `genres.add(x)` on a `Set` of strings, kept in insertion order. -/
def setAdd (genres : List Str) (x : Str) : List Str :=
  if genres.contains x then genres else genres ++ [x]

/-- Adding the elements of an array one by one, the effect of `xs.forEach(x => genres.add(x))`. -/
def setAddAll (genres : List Str) (xs : List Str) : List Str :=
  xs.foldl setAdd genres

/-- The method `Array.prototype.join(', ')`. -/
def joinComma : List Str → Str
  | [] => []
  | [x] => x
  | x :: y :: rest => x ++ js ", " ++ joinComma (y :: rest)

/-- The answers of the `track.getinfo` endpoint, one per artist name and track name; the body
is the list of the names in `trackData.track.toptags.tag`, `none` when one of these
properties is absent. -/
abbrev TrackLookup := Str → Str → Fetched (Option (List Str))

/-- One rule of `getSmartGenreMapping`: when the artist or track name contains `nameWord`, or
the query contains `queryWord`, the tags are pushed. -/
def smartRule (artistLower trackLower queryLower nameWord queryWord : Str)
    (tags : List Str) : List Str :=
  if includes artistLower nameWord || includes trackLower nameWord ||
      includes queryLower queryWord then tags else []

/-- Function `getSmartGenreMapping(artistName, trackName, searchQuery)`. -/
def getSmartGenreMapping (lc : Str → Str) (artistName trackName searchQuery : Str) :
    List Str :=
  let artistLower := lc artistName
  let trackLower := lc trackName
  let queryLower := lc searchQuery
  let rule := smartRule artistLower trackLower queryLower
  rule (js "underground") (js "underground") [js "underground"] ++
  rule (js "indie") (js "indie") [js "indie"] ++
  rule (js "experimental") (js "experimental") [js "experimental"] ++
  rule (js "avant") (js "avant-garde") [js "avant-garde"] ++
  rule (js "lo-fi") (js "lo-fi") [js "lo-fi", js "hip-hop"] ++
  rule (js "trap") (js "trap") [js "trap", js "hip-hop"] ++
  rule (js "cloud") (js "cloud") [js "cloud rap", js "hip-hop"] ++
  rule (js "ambient") (js "ambient") [js "ambient", js "electronic"] ++
  rule (js "electronic") (js "electronic") [js "electronic"] ++
  rule (js "post-rock") (js "post-rock") [js "post-rock", js "rock"] ++
  rule (js "math rock") (js "math rock") [js "math rock", js "rock"] ++
  rule (js "alternative") (js "alternative") [js "alternative", js "rock"] ++
  rule (js "free jazz") (js "free jazz") [js "free jazz", js "jazz"] ++
  rule (js "jazz") (js "jazz") [js "jazz"]

/-- One line of `inferGenresFromQuery`. -/
def queryRule (queryLower word : Str) (tags : List Str) : List Str :=
  if includes queryLower word then tags else []

/-- Function `inferGenresFromQuery(searchQuery)`. -/
def inferGenresFromQuery (lc : Str → Str) (searchQuery : Str) : List Str :=
  let queryLower := lc searchQuery
  queryRule queryLower (js "trap") [js "trap", js "hip-hop"] ++
  queryRule queryLower (js "experimental") [js "experimental"] ++
  queryRule queryLower (js "jazz") [js "jazz"] ++
  queryRule queryLower (js "alternative") [js "alternative", js "rock"] ++
  queryRule queryLower (js "electronic") [js "electronic"] ++
  queryRule queryLower (js "lo-fi") [js "lo-fi", js "hip-hop"] ++
  queryRule queryLower (js "indie") [js "indie"] ++
  queryRule queryLower (js "hip-hop") [js "hip-hop"] ++
  queryRule queryLower (js "ambient") [js "ambient", js "electronic"]

/-- Steps 3 to 5 of `getEnhancedGenres` on the set built by steps 1 and 2: the smart
mapping, the query scan when the set is still empty, and the tag `underground`. -/
def finishGenres (lc : Str → Str) (artistName trackName searchQuery : Str)
    (genres : List Str) : List Str :=
  let withSmart := setAddAll genres (getSmartGenreMapping lc artistName trackName searchQuery)
  let withQuery :=
    if withSmart.length = 0 then setAddAll withSmart (inferGenresFromQuery lc searchQuery)
    else withSmart
  setAdd withQuery (js "underground")

/-- The set `genres` of `getEnhancedGenres` when the `try` block ends normally, `none` when
it is left by an exception.  `getArtistInfo` catches its own errors, so a failed artist
lookup gives no tags and the block goes on; a `fetch` of the track info that throws leaves
the block. -/
def enhancedGenreSet (lc : Str → Str) (artistLookup : ArtistLookup) (trackLookup : TrackLookup)
    (artistName trackName searchQuery : Str) : Option (List Str) :=
  let artistTags : List Str :=
    match getArtistInfo artistLookup artistName with
    | none => []
    | some artistInfo => (artistInfo.tags.getD []).map lc
  let afterArtist := setAddAll [] artistTags
  match trackLookup artistName trackName with
  | .threw => none
  | .notOk => some (finishGenres lc artistName trackName searchQuery afterArtist)
  | .ok body =>
    some (finishGenres lc artistName trackName searchQuery
      (setAddAll afterArtist ((body.getD []).map lc)))

/-- Function `getEnhancedGenres(artistName, trackName, searchQuery)`: the set joined by
`', '`, and `'underground'` from the `catch` block. -/
def getEnhancedGenres (lc : Str → Str) (artistLookup : ArtistLookup) (trackLookup : TrackLookup)
    (artistName trackName searchQuery : Str) : Str :=
  match enhancedGenreSet lc artistLookup trackLookup artistName trackName searchQuery with
  | none => js "underground"
  | some genres => joinComma genres

/-! ## Classic edit distance -/

/-- The cost of substituting the code unit `b` for `a`: nothing when they are equal. -/
def substitutionCost (a b : Nat) : Nat := if a = b then 0 else 1

/-- The classic edit distance in the words of the specification: the least number of
insertions, deletions and substitutions, each of cost 1, defined by recursion on the two
strings. -/
def editDistance : Str → Str → Nat
  | [], t => t.length
  | a :: s, [] => (a :: s).length
  | a :: s, b :: t =>
    min (editDistance s (b :: t) + 1)
      (min (editDistance (a :: s) t + 1) (editDistance s t + substitutionCost a b))
termination_by s t => s.length + t.length

/-- The sum of the five sub-scores before `Math.max(0, Math.min(100, score))`. -/
def unclampedScore (lc : Str → Str) (discoveryDays : Nat) (track : Track) : Int :=
  (scoreBreakdownOf lc discoveryDays track).listenerPoints +
    (scoreBreakdownOf lc discoveryDays track).genrePoints +
    (scoreBreakdownOf lc discoveryDays track).discoveryPoints +
    (scoreBreakdownOf lc discoveryDays track).indiePoints +
    (scoreBreakdownOf lc discoveryDays track).engagementPoints

/-- The number `parseInt(x || '0')` read from a statistics field; `none` is `NaN`. -/
def statCount (field : Option Str) : Option Int :=
  parseInt (match field with
    | none => js "0"
    | some s => if s.isEmpty then js "0" else s)

/-- A lookup that answers every artist with the given listener and play counts. -/
def statsLookup (listeners playcount : String) : ArtistLookup :=
  fun _ => Fetched.ok (some { listeners := some (js listeners), playcount := some (js playcount) })

/-! ## Sample inputs of the scoring and enrichment scenarios -/

/-- The track of the first scenario of the specification: 5,000 listeners, genre "idm", a
description of 150 code units and the artwork "real.jpg". -/
def scenarioTrack : Track :=
  { artist := js "Artist", title := js "Song", genre := some (js "idm"),
    listeners := some (js "5000"), description := some (List.replicate 150 120),
    artwork := some (js "real.jpg") }

/-- An artist lookup that always throws. -/
def artistLookupThrows : ArtistLookup := fun _ => .threw

/-- A track lookup that always throws. -/
def trackLookupThrows : TrackLookup := fun _ _ => .threw

/-- A track lookup that always answers with the given tag names. -/
def trackLookupTags (tags : List String) : TrackLookup := fun _ _ => .ok (some (tags.map js))

/-! ## Readings used in the statements -/

/-- The track at input position `i` after steps 1 to 3 of `applyUserPreferences`: the
callbacks of the two `map` calls applied to it, the second with the discovery draw of
position `i`. -/
def personalizedAt (lc : Str → Str) (draws : Nat → Nat) (preferences : UserPreferences)
    (i : Nat) (track : Track) : Track :=
  personalizeTrack lc preferences (draws i)
    (if preferences.favoriteGenres.length > 0 then
      scoreGenreMatch lc preferences.favoriteGenres track
    else track)

/-- The tags of a genre string as `applyUserPreferences` reads `track.genre` (after
lower-casing it): `genre.split(',').map(g => g.trim())`. -/
def genreTags (genre : Str) : List Str := (splitComma genre).map trim

/-- A track lookup that answers with two tags, the first of which holds a comma. -/
def trackLookupCommaTags : TrackLookup := trackLookupTags ["rock, pop", "pop"]

/-! # Theorems -/

/-! ## Similarity utility -/

theorem levRec_nil_left (r1 : Str) : levRec [] r1 = r1.length := by
  rw [levRec]

theorem levRec_nil_right (r2 : Str) : levRec r2 [] = r2.length := by
  cases r2 <;> simp [levRec]

theorem levRec_cons_cons (x2 x1 : Nat) (r2 r1 : Str) :
    levRec (x2 :: r2) (x1 :: r1) =
      cell x2 x1 (levRec r2 r1) (levRec (x2 :: r2) r1) (levRec r2 (x1 :: r1)) := by
  rw [levRec]

theorem rowRec_head_tail (r2 drev rest : Str) :
    rowRec r2 drev rest = levRec r2 drev :: (rowRec r2 drev rest).tail := by
  cases rest <;> simp [rowRec]

theorem fillRow_rowRec (c2 : Nat) (r2 : Str) (rest drev : Str) :
    fillRow c2 rest (rowRec r2 drev rest) (levRec (c2 :: r2) drev) =
      (rowRec (c2 :: r2) drev rest).tail := by
  induction rest generalizing drev with
  | nil => simp [rowRec, fillRow]
  | cons c1 s1 ih =>
    have h := ih (c1 :: drev)
    rw [rowRec, rowRec_head_tail r2 (c1 :: drev) s1, fillRow]
    simp only [rowRec, List.tail_cons]
    rw [← rowRec_head_tail r2 (c1 :: drev) s1, ← levRec_cons_cons, h]
    exact (rowRec_head_tail (c2 :: r2) (c1 :: drev) s1).symm

theorem nextRow_rowRec (str1 r2 : Str) (c2 : Nat) :
    nextRow str1 (rowRec r2 [] str1) (r2.length + 1) c2 = rowRec (c2 :: r2) [] str1 := by
  have h := fillRow_rowRec c2 r2 str1 []
  rw [levRec_nil_right] at h
  rw [nextRow, rowRec_head_tail (c2 :: r2) [] str1, levRec_nil_right]
  simpa using h

theorem fillRows_rowRec (str1 s2 r2 : Str) :
    fillRows str1 s2 (rowRec r2 [] str1) (r2.length + 1) =
      rowRec (s2.reverse ++ r2) [] str1 := by
  induction s2 generalizing r2 with
  | nil => simp [fillRows]
  | cons c2 s2 ih =>
    rw [fillRows, nextRow_rowRec]
    have h := ih (c2 :: r2)
    simpa using h

theorem rowRec_nil (drev rest : Str) :
    rowRec [] drev rest = List.range' drev.length (rest.length + 1) := by
  induction rest generalizing drev with
  | nil => simp [rowRec, levRec_nil_left]
  | cons c rest ih =>
    rw [rowRec, ih (c :: drev), levRec_nil_left]
    simp [List.range'_succ]

theorem getLast?_rowRec (r2 drev rest : Str) :
    (rowRec r2 drev rest).getLast? = some (levRec r2 (rest.reverse ++ drev)) := by
  induction rest generalizing drev with
  | nil => simp [rowRec]
  | cons c rest ih =>
    rw [rowRec, rowRec_head_tail r2 (c :: drev) rest, List.getLast?_cons_cons,
      ← rowRec_head_tail r2 (c :: drev) rest, ih (c :: drev)]
    simp

theorem levenshteinDistance_eq_levRec (str1 str2 : Str) :
    levenshteinDistance str1 str2 = levRec str2.reverse str1.reverse := by
  have h0 : List.range (str1.length + 1) = rowRec [] [] str1 := by
    rw [rowRec_nil, List.range_eq_range']
    rfl
  have h := fillRows_rowRec str1 str2 []
  simp only [List.length_nil, Nat.zero_add, List.append_nil] at h
  rw [levenshteinDistance, h0, h, getLast?_rowRec]
  simp

theorem cell_comm (c2 c1 diag left up : Nat) :
    cell c2 c1 diag left up = cell c1 c2 diag up left := by
  unfold cell
  by_cases h : c2 = c1
  · simp [h]
  · have h2 : ¬ c1 = c2 := fun e => h e.symm
    simp only [h, h2, if_false]
    rw [Nat.min_comm (left + 1) (up + 1)]

theorem levRec_comm (s t : Str) : levRec s t = levRec t s := by
  induction s generalizing t with
  | nil => rw [levRec_nil_left, levRec_nil_right]
  | cons a s ihs =>
    induction t with
    | nil => rw [levRec_nil_left, levRec_nil_right]
    | cons b t iht =>
      rw [levRec_cons_cons, levRec_cons_cons, cell_comm, ihs t, iht, ihs (b :: t)]

theorem levRec_self (s : Str) : levRec s s = 0 := by
  induction s with
  | nil => rw [levRec_nil_left]; rfl
  | cons a s ih => rw [levRec_cons_cons, cell, if_pos rfl, ih]

theorem levRec_le_max (s t : Str) : levRec s t ≤ max s.length t.length := by
  induction s generalizing t with
  | nil => rw [levRec_nil_left]; exact le_max_right _ _
  | cons a s ihs =>
    cases t with
    | nil => rw [levRec_nil_right]; exact le_max_left _ _
    | cons b t =>
      rw [levRec_cons_cons]
      have h := ihs t
      have hc : cell a b (levRec s t) (levRec (a :: s) t) (levRec s (b :: t)) ≤ levRec s t + 1 := by
        unfold cell
        split
        · omega
        · exact Nat.min_le_left _ _
      simp only [List.length_cons]
      omega

theorem levenshteinDistance_comm (s t : Str) :
    levenshteinDistance s t = levenshteinDistance t s := by
  rw [levenshteinDistance_eq_levRec, levenshteinDistance_eq_levRec, levRec_comm]

theorem levenshteinDistance_self (s : Str) : levenshteinDistance s s = 0 := by
  rw [levenshteinDistance_eq_levRec, levRec_self]

theorem levenshteinDistance_le_max (s t : Str) :
    levenshteinDistance s t ≤ max s.length t.length := by
  rw [levenshteinDistance_eq_levRec]
  have h := levRec_le_max t.reverse s.reverse
  simp only [List.length_reverse] at h
  omega

/-- C6. For every string `s`, the empty string included,
`calculateStringSimilarity(s, s)` is `1`. -/
theorem calculateStringSimilarity_self (s : Str) : calculateStringSimilarity s s = 1 := by
  unfold calculateStringSimilarity
  simp only [gt_iff_lt, lt_self_iff_false, if_false]
  by_cases h : s.length = 0
  · simp [h]
  · have hq : (s.length : ℚ) ≠ 0 := by exact_mod_cast h
    rw [if_neg h, levenshteinDistance_self]
    simp [hq]

theorem calculateStringSimilarity_swap (s t : Str) :
    calculateStringSimilarity s t = calculateStringSimilarity t s := by
  unfold calculateStringSimilarity
  rcases Nat.lt_trichotomy s.length t.length with h | h | h
  · have h1 : ¬ s.length > t.length := by omega
    simp only [h1, h, if_false, if_true, gt_iff_lt]
  · have h1 : ¬ s.length > t.length := by omega
    have h2 : ¬ t.length > s.length := by omega
    simp only [h1, h2, if_false]
    rw [levenshteinDistance_comm t s, h]
  · have h1 : ¬ t.length > s.length := by omega
    simp only [h1, h, if_false, if_true, gt_iff_lt]

/-- C7. For all strings `s` and `t`, `calculateStringSimilarity(s, t)` equals
`calculateStringSimilarity(t, s)`.  This includes equal lengths, where the two calls pass
the arguments to `levenshteinDistance` in opposite orders: the distance is symmetric. -/
theorem calculateStringSimilarity_comm (s t : Str) :
    calculateStringSimilarity s t = calculateStringSimilarity t s ∧
      levenshteinDistance s t = levenshteinDistance t s :=
  ⟨calculateStringSimilarity_swap s t, levenshteinDistance_comm s t⟩

/-- C8. For all strings `s` and `t`, the similarity is an exact rational between `0` and
`1`, and `levenshteinDistance` never exceeds the length of the longer string. -/
theorem calculateStringSimilarity_bounds (s t : Str) :
    0 ≤ calculateStringSimilarity s t ∧ calculateStringSimilarity s t ≤ 1 ∧
      levenshteinDistance s t ≤ max s.length t.length := by
  refine ⟨?_, ?_, levenshteinDistance_le_max s t⟩
  · unfold calculateStringSimilarity
    generalize hl : (if s.length > t.length then s else t) = longer
    generalize hs : (if s.length > t.length then t else s) = shorter
    have hlen : shorter.length ≤ longer.length := by
      subst hl; subst hs
      split <;> omega
    simp only
    split
    · norm_num
    · have hd : levenshteinDistance longer shorter ≤ longer.length := by
        have := levenshteinDistance_le_max longer shorter
        omega
      have hd2 : (levenshteinDistance longer shorter : ℚ) ≤ (longer.length : ℚ) := by
        exact_mod_cast hd
      apply div_nonneg
      · linarith
      · exact Nat.cast_nonneg _
  · unfold calculateStringSimilarity
    generalize (if s.length > t.length then s else t) = longer
    generalize (if s.length > t.length then t else s) = shorter
    simp only
    split
    · norm_num
    · rename_i h
      have hpos : (0 : ℚ) < (longer.length : ℚ) := by
        exact_mod_cast Nat.pos_of_ne_zero h
      rw [div_le_one hpos]
      have : (0 : ℚ) ≤ (levenshteinDistance longer shorter : ℚ) := Nat.cast_nonneg _
      linarith

/-! ## Underground scorer -/

theorem includes_iff (s needle : Str) : includes s needle = true ↔ needle <:+: s := by
  induction s with
  | nil => cases needle <;> simp [includes]
  | cons c rest ih =>
    rw [includes, Bool.or_eq_true, ih, List.infix_cons_iff, List.isPrefixOf_iff_prefix]

theorem any_includes_iff (terms : List Str) (s : Str) :
    terms.any (fun u => includes s u) = true ↔ ∃ u ∈ terms, u <:+: s := by
  simp [List.any_eq_true, includes_iff]

/-- C1. For every track and every discovery draw, `calculateUndergroundScore` returns an
integer between `0` and `100` that equals the sum of the five sub-scores written to
`track.scoreBreakdown`, clamped to `[0, 100]`. -/
theorem calculateUndergroundScore_clamped (lc : Str → Str) (discoveryDays : Nat)
    (track : Track) :
    0 ≤ (calculateUndergroundScore lc discoveryDays track).1 ∧
      (calculateUndergroundScore lc discoveryDays track).1 ≤ 100 ∧
      ∃ b : ScoreBreakdown,
        (calculateUndergroundScore lc discoveryDays track).2.scoreBreakdown = some b ∧
        (calculateUndergroundScore lc discoveryDays track).1 =
          max 0 (min 100 (b.listenerPoints + b.genrePoints + b.discoveryPoints +
            b.indiePoints + b.engagementPoints)) := by
  refine ⟨?_, ?_, scoreBreakdownOf lc discoveryDays track, rfl, rfl⟩
  · simp only [calculateUndergroundScore]
    exact le_max_left _ _
  · simp only [calculateUndergroundScore]
    exact max_le (by norm_num) (min_le_left _ _)

/-- C9. `analyzeGenre` gives `0` for a missing or empty genre; otherwise `25` if the
lower-cased genre contains a term of the underground list, else `15` if it contains one of
indie, alternative, electronic, hip hop, punk, else `-10` if it contains one of pop, rock,
country, r&b, else `0`.  In particular "ambient pop" gives `25`. -/
theorem analyzeGenre_spec :
    (∀ lc : Str → Str, analyzeGenre lc none = 0) ∧
    (∀ (lc : Str → Str) (g : Str), analyzeGenre lc (some g) =
      if g = [] then 0
      else if ∃ u ∈ undergroundGenres, u <:+: lc g then 25
      else if ∃ m ∈ [js "indie", js "alternative", js "electronic", js "hip hop", js "punk"],
          m <:+: lc g then 15
      else if ∃ m ∈ [js "pop", js "rock", js "country", js "r&b"], m <:+: lc g then -10
      else 0) ∧
    analyzeGenre asciiLower (some (js "ambient pop")) = 25 := by
  refine ⟨fun _ => rfl, ?_, by decide⟩
  intro lc g
  unfold analyzeGenre
  by_cases hg : g = []
  · simp [hg]
  · have hne : g.isEmpty = false := by
      cases g with
      | nil => exact absurd rfl hg
      | cons _ _ => rfl
    simp only [hne, hg, if_false, Bool.false_eq_true]
    have e1 := any_includes_iff undergroundGenres (lc g)
    have e2 := any_includes_iff moderateGenres (lc g)
    have e3 := any_includes_iff mainstreamGenres (lc g)
    simp only [e1, e2, e3]
    rfl

/-- C10. With `n` the listener count parsed as an integer (`0` for a missing field and for
a string that `parseInt` rejects), the `listenerPoints` written by
`calculateUndergroundScore` are `30` for `n < 10000`, `20` for `10000 ≤ n < 50000`, `10`
for `50000 ≤ n < 100000`, `5` for `100000 ≤ n < 500000` and `0` for `n ≥ 500000`. -/
theorem listenerPoints_bands (lc : Str → Str) (discoveryDays : Nat) (track : Track) :
    (calculateUndergroundScore lc discoveryDays track).2.scoreBreakdown.map
        ScoreBreakdown.listenerPoints =
      some (if (track.listeners.bind parseInt).getD 0 < 10000 then 30
        else if 10000 ≤ (track.listeners.bind parseInt).getD 0 ∧
            (track.listeners.bind parseInt).getD 0 < 50000 then 20
        else if 50000 ≤ (track.listeners.bind parseInt).getD 0 ∧
            (track.listeners.bind parseInt).getD 0 < 100000 then 10
        else if 100000 ≤ (track.listeners.bind parseInt).getD 0 ∧
            (track.listeners.bind parseInt).getD 0 < 500000 then 5
        else 0) := by
  have hn : listenerCount track = (track.listeners.bind parseInt).getD 0 := by
    unfold listenerCount
    cases track.listeners <;> rfl
  simp only [calculateUndergroundScore, scoreBreakdownOf, Option.map_some', listenerPoints, hn]
  generalize (track.listeners.bind parseInt).getD 0 = n
  congr 1
  split_ifs <;> first | rfl | omega

/-! ## De-duplicator -/

theorem removeDuplicateLoop_acc (lc : Str → Str) (lookup : ArtistLookup)
    (tracks : List Track) (seen : SeenMap) (acc : List Track) :
    removeDuplicateLoop lc lookup tracks seen acc =
      acc ++ removeDuplicateLoop lc lookup tracks seen [] := by
  induction tracks generalizing seen acc with
  | nil => simp [removeDuplicateLoop]
  | cons t rest ih =>
    simp only [removeDuplicateLoop]
    split
    · exact ih seen acc
    · split
      · exact ih seen acc
      · split
        · exact ih seen acc
        · rw [ih _ (acc ++ [t]), ih _ ([] ++ [t])]
          simp

theorem removeDuplicateLoop_cons (lc : Str → Str) (lookup : ArtistLookup)
    (t : Track) (rest : List Track) (seen : SeenMap) :
    removeDuplicateLoop lc lookup (t :: rest) seen [] =
      if skipsTrack lc lookup seen t then removeDuplicateLoop lc lookup rest seen []
      else t :: removeDuplicateLoop lc lookup rest (recordTrack lc seen t) [] := by
  rw [removeDuplicateLoop]
  unfold skipsTrack recordTrack
  by_cases h1 : seen.has (uniqueKey lc t) = true
  · simp [h1]
  · by_cases h2 : isUnofficialRelease lc lookup t.artist t.title = true
    · simp [h1, h2]
    · by_cases h3 : isTruthy (findSimilarTrack (normalizedArtist lc t) (cleanTitle lc t) seen) = true
      · simp [h1, h2, h3]
      · simp only [h1, h2, h3, if_false, Bool.or_self, Bool.false_eq_true]
        rw [removeDuplicateLoop_acc]
        simp

theorem removeDuplicateLoop_idem (lc : Str → Str) (lookup : ArtistLookup)
    (tracks : List Track) (seen : SeenMap) :
    removeDuplicateLoop lc lookup (removeDuplicateLoop lc lookup tracks seen []) seen [] =
      removeDuplicateLoop lc lookup tracks seen [] := by
  induction tracks generalizing seen with
  | nil => simp [removeDuplicateLoop]
  | cons t rest ih =>
    rw [removeDuplicateLoop_cons]
    by_cases h : skipsTrack lc lookup seen t = true
    · rw [if_pos h]
      exact ih seen
    · rw [if_neg h, removeDuplicateLoop_cons, if_neg h, ih]

theorem removeDuplicateLoop_sublist (lc : Str → Str) (lookup : ArtistLookup)
    (tracks : List Track) (seen : SeenMap) :
    (removeDuplicateLoop lc lookup tracks seen []).Sublist tracks := by
  induction tracks generalizing seen with
  | nil => simp [removeDuplicateLoop]
  | cons t rest ih =>
    rw [removeDuplicateLoop_cons]
    split
    · exact (ih seen).cons t
    · exact (ih _).cons₂ t

/-- C2. De-duplication is idempotent: for every list of tracks and every fixed answer of
the mainstream-artist lookup, running `removeDuplicateTracks` on its own output returns
that output. -/
theorem removeDuplicateTracks_idempotent (lc : Str → Str) (lookup : ArtistLookup)
    (tracks : List Track) :
    removeDuplicateTracks lc lookup (removeDuplicateTracks lc lookup tracks) =
      removeDuplicateTracks lc lookup tracks :=
  removeDuplicateLoop_idem lc lookup tracks []

/-- C4. The output of `removeDuplicateTracks` is an order-preserving sub-list of its input:
it is obtained by deleting tracks, so every output track is an input track, none occurs
more often than in the input, and the kept tracks are in input order. -/
theorem removeDuplicateTracks_sublist (lc : Str → Str) (lookup : ArtistLookup)
    (tracks : List Track) :
    (removeDuplicateTracks lc lookup tracks).Sublist tracks ∧
      removeDuplicateTracks lc lookup tracks ⊆ tracks ∧
      (∀ t, (removeDuplicateTracks lc lookup tracks).count t ≤ tracks.count t) := by
  have h := removeDuplicateLoop_sublist lc lookup tracks []
  exact ⟨h, h.subset, fun t => h.count_le t⟩

theorem SeenMap.has_append (seen : SeenMap) (e : Str × SeenEntry) (key : Str) :
    SeenMap.has (seen ++ [e]) key = (SeenMap.has seen key || e.1 == key) := by
  simp [SeenMap.has, List.any_append]

theorem SeenMap.set_of_not_has (seen : SeenMap) (key : Str) (value : SeenEntry)
    (h : SeenMap.has seen key = false) : SeenMap.set seen key value = seen ++ [(key, value)] := by
  induction seen with
  | nil => rfl
  | cons e rest ih =>
    obtain ⟨k, v⟩ := e
    simp only [SeenMap.has, List.any_cons, Bool.or_eq_false_iff] at h
    have hk : (k == key) = false := h.1
    have hrest : SeenMap.has rest key = false := h.2
    simp only [SeenMap.set, hk, Bool.false_eq_true, if_false, List.cons_append, ih hrest]

theorem uniqueKey_ne_nil (lc : Str → Str) (track : Track) : uniqueKey lc track ≠ [] := by
  unfold uniqueKey
  have h : js "|" = [124] := by decide
  rw [h]
  simp

theorem recordTrack_eq (lc : Str → Str) (lookup : ArtistLookup) (seen : SeenMap) (t : Track)
    (h : skipsTrack lc lookup seen t = false) :
    ∃ (key : Str) (entry : SeenEntry), key = uniqueKey lc t ∧
      entry.artist = normalizedArtist lc t ∧ entry.title = cleanTitle lc t ∧
      recordTrack lc seen t = seen ++ [(key, entry)] := by
  unfold skipsTrack at h
  simp only [Bool.or_eq_false_iff] at h
  exact ⟨_, _, rfl, rfl, rfl, SeenMap.set_of_not_has seen _ _ h.1.1⟩

theorem findSimilarTrack_falsy (artist title : Str) (seen : SeenMap)
    (hkeys : ∀ e ∈ seen, e.1 ≠ [])
    (h : isTruthy (findSimilarTrack artist title seen) = false) :
    ∀ e ∈ seen, e.2.artist = artist → ¬ IsNearDuplicateTitle title e.2.title := by
  induction seen with
  | nil => simp
  | cons e rest ih =>
    obtain ⟨k, v⟩ := e
    have hk : k ≠ [] := hkeys (k, v) (List.mem_cons_self _ _)
    have hrestKeys : ∀ e ∈ rest, e.1 ≠ [] := fun e he => hkeys e (List.mem_cons_of_mem _ he)
    rw [findSimilarTrack] at h
    by_cases ha : v.artist = artist
    · by_cases hs : IsNearDuplicateTitle title v.title
      · simp only [ha, ne_eq, not_true_eq_false, if_false, hs, if_true, isTruthy] at h
        cases k with
        | nil => exact absurd rfl hk
        | cons _ _ => simp at h
      · simp only [ha, ne_eq, not_true_eq_false, if_false, hs] at h
        intro e he
        rcases List.mem_cons.mp he with rfl | he
        · intro _; exact hs
        · exact ih hrestKeys h e he
    · simp only [ne_eq, ha, not_false_eq_true, if_true] at h
      intro e he
      rcases List.mem_cons.mp he with rfl | he
      · intro hc; exact absurd hc ha
      · exact ih hrestKeys h e he

theorem removeDuplicateLoop_no_near (lc : Str → Str) (lookup : ArtistLookup)
    (tracks : List Track) (seen : SeenMap) (hkeys : ∀ e ∈ seen, e.1 ≠ []) :
    (∀ b ∈ removeDuplicateLoop lc lookup tracks seen [], ∀ e ∈ seen,
        e.2.artist = normalizedArtist lc b →
          ¬ IsNearDuplicateTitle (cleanTitle lc b) e.2.title) ∧
      (removeDuplicateLoop lc lookup tracks seen []).Pairwise (fun a b =>
        normalizedArtist lc a = normalizedArtist lc b →
          ¬ IsNearDuplicateTitle (cleanTitle lc b) (cleanTitle lc a)) := by
  induction tracks generalizing seen with
  | nil => simp [removeDuplicateLoop]
  | cons t rest ih =>
    rw [removeDuplicateLoop_cons]
    by_cases h : skipsTrack lc lookup seen t = true
    · rw [if_pos h]
      exact ih seen hkeys
    · have hf : skipsTrack lc lookup seen t = false := by simpa using h
      obtain ⟨key, entry, hkey, hea, het, hrec⟩ := recordTrack_eq lc lookup seen t hf
      have hkeyne : key ≠ [] := hkey ▸ uniqueKey_ne_nil lc t
      rw [if_neg h, hrec]
      have hkeys2 : ∀ e ∈ seen ++ [(key, entry)], e.1 ≠ [] := by
        intro e he
        rcases List.mem_append.mp he with he | he
        · exact hkeys e he
        · rw [List.mem_singleton] at he
          rw [he]
          exact hkeyne
      obtain ⟨ih1, ih2⟩ := ih _ hkeys2
      have hsim : isTruthy (findSimilarTrack (normalizedArtist lc t) (cleanTitle lc t) seen)
          = false := by
        unfold skipsTrack at hf
        simp only [Bool.or_eq_false_iff] at hf
        exact hf.2
      constructor
      · intro b hb e he
        rcases List.mem_cons.mp hb with rfl | hb
        · exact findSimilarTrack_falsy _ _ seen hkeys hsim e he
        · exact ih1 b hb e (List.mem_append_left _ he)
      · rw [List.pairwise_cons]
        refine ⟨?_, ih2⟩
        intro b hb hab
        have hnew := ih1 b hb (key, entry)
          (List.mem_append_right _ (List.mem_singleton_self _))
        simp only [hea, het] at hnew
        exact hnew hab

/-- C5. The output of `removeDuplicateTracks` contains no near-duplicate pair: no two
distinct output positions hold tracks with the same normalized artist whose cleaned titles
have `calculateStringSimilarity` above `0.9`. -/
theorem removeDuplicateTracks_no_near_duplicates (lc : Str → Str) (lookup : ArtistLookup)
    (tracks : List Track) (i j : Nat) (a b : Track) (hij : i ≠ j)
    (hi : (removeDuplicateTracks lc lookup tracks)[i]? = some a)
    (hj : (removeDuplicateTracks lc lookup tracks)[j]? = some b) :
    ¬ (normalizedArtist lc a = normalizedArtist lc b ∧
        calculateStringSimilarity (cleanTitle lc a) (cleanTitle lc b) > 9 / 10) := by
  have hp := (removeDuplicateLoop_no_near lc lookup tracks [] (by simp)).2
  rw [List.pairwise_iff_getElem] at hp
  unfold removeDuplicateTracks at hi hj
  obtain ⟨hi1, hi2⟩ := List.getElem?_eq_some.mp hi
  obtain ⟨hj1, hj2⟩ := List.getElem?_eq_some.mp hj
  rintro ⟨ha, hs⟩
  rcases Nat.lt_or_gt_of_ne hij with hlt | hgt
  · have h := hp i j hi1 hj1 hlt
    rw [hi2, hj2] at h
    refine h ha ?_
    unfold IsNearDuplicateTitle
    rw [calculateStringSimilarity_swap]
    exact hs
  · have h := hp j i hj1 hi1 hgt
    rw [hi2, hj2] at h
    exact h ha.symm hs

theorem removeDuplicateTracks_no_near_duplicates_witness :
    ¬ (normalizedArtist asciiLower (burial "Archangel") =
          normalizedArtist asciiLower (burial "Near Dark") ∧
        calculateStringSimilarity (cleanTitle asciiLower (burial "Archangel"))
          (cleanTitle asciiLower (burial "Near Dark")) > 9 / 10) :=
  removeDuplicateTracks_no_near_duplicates asciiLower (fun _ => Fetched.notOk)
    [burial "Archangel", burial "Archangel ", burial "Near Dark"] 0 1
    (burial "Archangel") (burial "Near Dark") (by decide) (by decide) (by decide)

theorem removeDuplicateLoop_keys (lc : Str → Str) (lookup : ArtistLookup)
    (tracks : List Track) (seen : SeenMap) :
    (∀ b ∈ removeDuplicateLoop lc lookup tracks seen [],
        SeenMap.has seen (uniqueKey lc b) = false) ∧
      (removeDuplicateLoop lc lookup tracks seen []).Pairwise (fun a b =>
        ¬ (uniqueKey lc a = uniqueKey lc b)) := by
  induction tracks generalizing seen with
  | nil => simp [removeDuplicateLoop]
  | cons t rest ih =>
    rw [removeDuplicateLoop_cons]
    by_cases h : skipsTrack lc lookup seen t = true
    · rw [if_pos h]
      exact ih seen
    · have hf : skipsTrack lc lookup seen t = false := by simpa using h
      obtain ⟨key, entry, hkey, _, _, hrec⟩ := recordTrack_eq lc lookup seen t hf
      rw [if_neg h, hrec]
      obtain ⟨ih1, ih2⟩ := ih (seen ++ [(key, entry)])
      have hhas : SeenMap.has seen (uniqueKey lc t) = false := by
        unfold skipsTrack at hf
        simp only [Bool.or_eq_false_iff] at hf
        exact hf.1.1
      have hsplit : ∀ b ∈ removeDuplicateLoop lc lookup rest (seen ++ [(key, entry)]) [],
          SeenMap.has seen (uniqueKey lc b) = false ∧ ¬ (uniqueKey lc t = uniqueKey lc b) := by
        intro b hb
        have hb1 := ih1 b hb
        rw [SeenMap.has_append, Bool.or_eq_false_iff] at hb1
        refine ⟨hb1.1, ?_⟩
        intro heq
        have h2 := hb1.2
        rw [hkey, heq] at h2
        simp at h2
      constructor
      · intro b hb
        rcases List.mem_cons.mp hb with rfl | hb
        · exact hhas
        · exact (hsplit b hb).1
      · rw [List.pairwise_cons]
        exact ⟨fun b hb => (hsplit b hb).2, ih2⟩

theorem countP_le_one_of_pairwise {α : Type} (p : α → Bool) (l : List α)
    (h : l.Pairwise (fun a b => ¬ (p a = true ∧ p b = true))) : l.countP p ≤ 1 := by
  induction l with
  | nil => simp
  | cons a l ih =>
    rw [List.pairwise_cons] at h
    by_cases ha : p a = true
    · have hz : l.countP p = 0 := by
        rw [List.countP_eq_zero]
        intro b hb hpb
        exact h.1 b hb ⟨ha, hpb⟩
      rw [List.countP_cons_of_pos _ _ ha, hz]
    · rw [List.countP_cons_of_neg _ _ ha]
      exact ih h.2

/-- C3, as stated, fails.  With every lookup answering "not ok", the list of two copies of
the track "Song (Live)" by "Artist" holds two tracks with the same normalized key, and the
output holds no track with that key: both are dropped as unofficial releases. -/
theorem removeDuplicateTracks_exactly_one_fails :
    ¬ (∀ (tracks : List Track) (a b : Track), [a, b].Sublist tracks →
        normalizedArtist asciiLower a = normalizedArtist asciiLower b →
        cleanTitle asciiLower a = cleanTitle asciiLower b →
        (removeDuplicateTracks asciiLower (fun _ => Fetched.notOk) tracks).countP
          (fun t => decide (normalizedArtist asciiLower t = normalizedArtist asciiLower a ∧
            cleanTitle asciiLower t = cleanTitle asciiLower a)) = 1) := by
  intro h
  have h1 := h [{ artist := js "Artist", title := js "Song (Live)" },
      { artist := js "Artist", title := js "Song (Live)" }]
    { artist := js "Artist", title := js "Song (Live)" }
    { artist := js "Artist", title := js "Song (Live)" }
    (List.Sublist.refl _) rfl rfl
  revert h1
  decide

theorem removeDuplicateTracks_pair (lc : Str → Str) (lookup : ArtistLookup) (a b : Track)
    (hartist : normalizedArtist lc a = normalizedArtist lc b)
    (htitle : cleanTitle lc a = cleanTitle lc b)
    (hofficial : isUnofficialRelease lc lookup a.artist a.title = false) :
    removeDuplicateTracks lc lookup [a, b] = [a] := by
  have hkey : uniqueKey lc a = uniqueKey lc b := by
    unfold uniqueKey
    rw [hartist, htitle]
  have hskipA : skipsTrack lc lookup [] a = false := by
    simp [skipsTrack, SeenMap.has, hofficial, findSimilarTrack, isTruthy]
  have hskipB : skipsTrack lc lookup (recordTrack lc [] a) b = true := by
    simp [skipsTrack, recordTrack, SeenMap.set, SeenMap.has, hkey]
  rw [removeDuplicateTracks, removeDuplicateLoop_cons, hskipA, if_neg Bool.false_ne_true,
    removeDuplicateLoop_cons, hskipB, if_pos rfl, removeDuplicateLoop]

/-- C3, amended. For every input list and every normalized key (lower-cased trimmed artist,
cleaned title), the output of `removeDuplicateTracks` contains at most one track with that
key.  When the input is two tracks with the same normalized key and the first is not
classified as an unofficial release, the output is the first track alone. -/
theorem removeDuplicateTracks_at_most_one_per_key (lc : Str → Str) (lookup : ArtistLookup) :
    (∀ (tracks : List Track) (artist title : Str),
      (removeDuplicateTracks lc lookup tracks).countP
        (fun t => decide (normalizedArtist lc t = artist ∧ cleanTitle lc t = title)) ≤ 1) ∧
    (∀ a b : Track, normalizedArtist lc a = normalizedArtist lc b →
      cleanTitle lc a = cleanTitle lc b →
      isUnofficialRelease lc lookup a.artist a.title = false →
      removeDuplicateTracks lc lookup [a, b] = [a]) := by
  refine ⟨?_, removeDuplicateTracks_pair lc lookup⟩
  intro tracks artist title
  apply countP_le_one_of_pairwise
  refine (removeDuplicateLoop_keys lc lookup tracks []).2.imp ?_
  intro a b hne hab
  simp only [decide_eq_true_eq] at hab
  apply hne
  unfold uniqueKey
  rw [hab.1.1, hab.1.2, hab.2.1, hab.2.2]

theorem removeDuplicateTracks_at_most_one_per_key_witness :
    normalizedArtist asciiLower (burial "Archangel") =
        normalizedArtist asciiLower (burial "ARCHANGEL (Official Video)") ∧
      cleanTitle asciiLower (burial "Archangel") =
        cleanTitle asciiLower (burial "ARCHANGEL (Official Video)") ∧
      removeDuplicateTracks asciiLower (fun _ => Fetched.notOk)
        [burial "Archangel", burial "ARCHANGEL (Official Video)"] = [burial "Archangel"] :=
  ⟨by decide, by decide,
    (removeDuplicateTracks_at_most_one_per_key asciiLower (fun _ => Fetched.notOk)).2
      (burial "Archangel") (burial "ARCHANGEL (Official Video)")
      (by decide) (by decide) (by decide)⟩

/-! ## Host sort -/

/-- Sorting with the comparator `key b - key a`: the result is a rearrangement of the
input, in non-increasing order of the key, and the elements of each key value are in
their input order. -/
theorem arraySort_descending {α : Type} (key : α → Int) (items : List α) :
    (arraySort (fun a b => key b - key a) items).Perm items ∧
      (arraySort (fun a b => key b - key a) items).Pairwise (fun a b => key b ≤ key a) ∧
      ∀ k : Int, (arraySort (fun a b => key b - key a) items).filter (fun a => key a == k) =
        items.filter (fun a => key a == k) := by
  have htotal : IsTotal α (fun a b => key b - key a ≤ 0) :=
    ⟨fun a b => by
      rcases le_total (key a) (key b) with h | h
      · right; omega
      · left; omega⟩
  have htrans : IsTrans α (fun a b => key b - key a ≤ 0) :=
    ⟨fun a b c hab hbc => by
      have h1 : key b - key a ≤ 0 := hab
      have h2 : key c - key b ≤ 0 := hbc
      show key c - key a ≤ 0
      omega⟩
  have hperm : (arraySort (fun a b => key b - key a) items).Perm items :=
    List.perm_insertionSort _ items
  refine ⟨hperm, ?_, ?_⟩
  · have hs := List.sorted_insertionSort (fun a b => key b - key a ≤ 0) items
    refine List.Pairwise.imp ?_ hs
    intro a b hab
    have h1 : key b - key a ≤ 0 := hab
    omega
  · intro k
    have hpw : (items.filter (fun a => key a == k)).Pairwise
        (fun a b => key b - key a ≤ 0) := by
      rw [List.pairwise_iff_forall_sublist]
      intro a b hab
      have ha : a ∈ items.filter (fun a => key a == k) := hab.subset (by simp)
      have hb : b ∈ items.filter (fun a => key a == k) := hab.subset (by simp)
      simp only [List.mem_filter, beq_iff_eq] at ha hb
      rw [ha.2, hb.2]
      simp
    have hsub : (items.filter (fun a => key a == k)).Sublist
        (arraySort (fun a b => key b - key a) items) :=
      List.sublist_insertionSort hpw (List.filter_sublist items)
    have hsub2 := hsub.filter (fun a => key a == k)
    rw [List.filter_filter] at hsub2
    simp only [Bool.and_self] at hsub2
    have hlen := (hperm.filter (fun a => key a == k)).length_eq
    exact (hsub2.eq_of_length hlen.symm).symm

/-! ## Engagement, sorting and personalization -/

theorem analyzeEngagement_eq (track : Track) :
    ∃ a b : Int, analyzeEngagement track = 5 * a + 5 * b ∧ (a = 0 ∨ a = 1) ∧ (b = 0 ∨ b = 1) ∧
      (a = 1 ↔ ∃ d, track.description = some d ∧ d.length > 100) ∧
      (b = 1 ↔ ∃ url, track.artwork = some url ∧ url ≠ [] ∧ ¬ (js "picsum" <:+: url)) := by
  refine ⟨if (∃ d, track.description = some d ∧ d.length > 100) then 1 else 0,
    if (∃ url, track.artwork = some url ∧ url ≠ [] ∧ ¬ (js "picsum" <:+: url)) then 1 else 0,
    ?_, ?_, ?_, ?_, ?_⟩
  · unfold analyzeEngagement
    rcases hd : track.description with _ | d <;> rcases ha : track.artwork with _ | url
    · simp
    · by_cases h1 : url = [] <;> by_cases h2 : js "picsum" <:+: url <;>
        simp [h1, h2, ← includes_iff]
    · by_cases h0 : d = [] <;> by_cases h3 : 100 < d.length <;> simp [h0, h3]
    · by_cases h0 : d = [] <;> by_cases h3 : 100 < d.length <;>
        by_cases h1 : url = [] <;> by_cases h2 : js "picsum" <:+: url <;>
        simp [h0, h3, h1, h2, ← includes_iff]
  · split <;> simp
  · split <;> simp
  · split <;> simp_all
  · split <;> simp_all


/-- C11, as stated, fails.  A track without artwork (such as the object scored in the
fallback search, which has neither `artwork` nor `description`) has no artwork URL that
references a placeholder generator, so the claim gives it `b = 1` and 5 points; the code
gives it 0. -/
theorem analyzeEngagement_missing_artwork_fails :
    ¬ (∀ track : Track, ∃ a b : Int, analyzeEngagement track = 5 * a + 5 * b ∧
        (a = 0 ∨ a = 1) ∧ (b = 0 ∨ b = 1) ∧
        (a = 1 ↔ ∃ d, track.description = some d ∧ d.length > 100) ∧
        (b = 1 ↔ ¬ ∃ url, track.artwork = some url ∧ js "picsum" <:+: url)) := by
  intro h
  obtain ⟨a, b, he, ha, _, hia, hib⟩ := h (sampleTrack "Artist" "Song" "idm" "0")
  have hb : b = 1 := hib.mpr (by simp [sampleTrack])
  have ha0 : a = 0 := by
    rcases ha with h0 | h1
    · exact h0
    · obtain ⟨d, hd, _⟩ := hia.mp h1
      simp [sampleTrack] at hd
  have hv : analyzeEngagement (sampleTrack "Artist" "Song" "idm" "0") = 0 := by decide
  rw [hv, ha0, hb] at he
  omega

/-- C11, amended. For every track, `analyzeEngagement` returns `5*a + 5*b` with `a`, `b` in
`{0, 1}`, where `a = 1` exactly when the track has a description longer than 100 code units
and `b = 1` exactly when the track has a non-empty artwork URL that does not contain
`picsum`; the result is 0, 5 or 10.  A description of exactly 100 code units earns nothing,
one of 101 earns 5. -/
theorem analyzeEngagement_spec :
    (∀ track : Track, ∃ a b : Int, analyzeEngagement track = 5 * a + 5 * b ∧
        (a = 0 ∨ a = 1) ∧ (b = 0 ∨ b = 1) ∧
        (a = 1 ↔ ∃ d, track.description = some d ∧ d.length > 100) ∧
        (b = 1 ↔ ∃ url, track.artwork = some url ∧ url ≠ [] ∧ ¬ (js "picsum" <:+: url))) ∧
      (∀ track : Track, analyzeEngagement track = 0 ∨ analyzeEngagement track = 5 ∨
        analyzeEngagement track = 10) ∧
      analyzeEngagement (describedTrack (List.replicate 100 120)) = 0 ∧
      analyzeEngagement (describedTrack (List.replicate 101 120)) = 5 := by
  refine ⟨analyzeEngagement_eq, ?_, by decide, by decide⟩
  intro track
  obtain ⟨a, b, he, ha, hb, _, _⟩ := analyzeEngagement_eq track
  rcases ha with ha | ha <;> rcases hb with hb | hb <;> rw [he, ha, hb] <;> simp

/-- C12. With the discovery draw fixed per track, `sortByUndergroundScore` returns a
rearrangement of its input in non-increasing order of `calculateUndergroundScore`, and the
tracks of each score value are in their input order. -/
theorem sortByUndergroundScore_sorted (lc : Str → Str) (draw : Track → Nat)
    (tracks : List Track) :
    (sortByUndergroundScore lc draw tracks).Perm tracks ∧
      (sortByUndergroundScore lc draw tracks).Pairwise (fun a b =>
        (calculateUndergroundScore lc (draw b) b).1 ≤
          (calculateUndergroundScore lc (draw a) a).1) ∧
      ∀ k : Int,
        (sortByUndergroundScore lc draw tracks).filter (fun a =>
            (calculateUndergroundScore lc (draw a) a).1 == k) =
          tracks.filter (fun a => (calculateUndergroundScore lc (draw a) a).1 == k) :=
  arraySort_descending (fun a => (calculateUndergroundScore lc (draw a) a).1) tracks

theorem mapWithDraws_map (f : Nat → Track → Track) (draws : Nat → Nat) (g : Track → Track)
    (tracks : List Track) : ∀ first : Nat,
    mapWithDraws f draws first (tracks.map g) =
      (tracks.enumFrom first).map (fun p => f (draws p.1) (g p.2)) := by
  induction tracks with
  | nil => exact fun _ => rfl
  | cons t rest ih =>
    intro first
    simp only [List.map_cons, mapWithDraws, List.enumFrom_cons, ih (first + 1)]

theorem personalizedTracks_eq (lc : Str → Str) (draws : Nat → Nat) (tracks : List Track)
    (preferences : UserPreferences) :
    personalizedTracks lc draws tracks preferences =
      (tracks.enum.map (fun p => personalizedAt lc draws preferences p.1 p.2)).filter
        (fun track => track.filtered != some true) := by
  unfold personalizedTracks personalizedAt
  by_cases h : preferences.favoriteGenres.length > 0
  · simp only [h, if_true]
    rw [mapWithDraws_map]
    rfl
  · simp only [h, if_false]
    have h2 := mapWithDraws_map (personalizeTrack lc preferences) draws id tracks 0
    rw [List.map_id] at h2
    rw [h2]
    rfl

theorem enumFrom_pairwise_fst {α : Type} (items : List α) : ∀ first : Nat,
    (items.enumFrom first).Pairwise (fun p q => p.1 < q.1) := by
  induction items with
  | nil => exact fun _ => List.Pairwise.nil
  | cons a rest ih =>
    intro first
    rw [List.enumFrom_cons, List.pairwise_cons]
    refine ⟨?_, ih (first + 1)⟩
    intro q hq
    have := List.le_fst_of_mem_enumFrom hq
    show first < q.1
    omega

theorem personalizeTrack_fields (lc : Str → Str) (preferences : UserPreferences)
    (discoveryDays : Nat) (track : Track) :
    (personalizeTrack lc preferences discoveryDays track).title = track.title ∧
      (personalizeTrack lc preferences discoveryDays track).artist = track.artist ∧
      (personalizeTrack lc preferences discoveryDays track).genre = track.genre ∧
      (personalizeTrack lc preferences discoveryDays track).listeners = track.listeners ∧
      (personalizeTrack lc preferences discoveryDays track).description = track.description ∧
      (personalizeTrack lc preferences discoveryDays track).artwork = track.artwork := by
  unfold personalizeTrack calculateUndergroundScore
  refine ⟨?_, ?_, ?_, ?_, ?_, ?_⟩ <;> (simp only []; split_ifs <;> rfl)

theorem personalizedAt_fields (lc : Str → Str) (draws : Nat → Nat)
    (preferences : UserPreferences) (i : Nat) (track : Track) :
    (personalizedAt lc draws preferences i track).title = track.title ∧
      (personalizedAt lc draws preferences i track).artist = track.artist ∧
      (personalizedAt lc draws preferences i track).genre = track.genre ∧
      (personalizedAt lc draws preferences i track).listeners = track.listeners ∧
      (personalizedAt lc draws preferences i track).description = track.description ∧
      (personalizedAt lc draws preferences i track).artwork = track.artwork := by
  unfold personalizedAt
  obtain ⟨h1, h2, h3, h4, h5, h6⟩ := personalizeTrack_fields lc preferences (draws i)
    (if preferences.favoriteGenres.length > 0 then
      scoreGenreMatch lc preferences.favoriteGenres track else track)
  rw [h1, h2, h3, h4, h5, h6]
  split_ifs <;> exact ⟨rfl, rfl, rfl, rfl, rfl, rfl⟩

/-- Stable descending sort, by input position: sorting the images under `f` of a list of
positioned items gives the images of a rearrangement of the positioned items in which
items of equal key stand in the order of the list. -/
theorem arraySort_positions {α β : Type} (key : β → Int) (f : α → β) (items : List α) :
    ∃ ranked : List α,
      arraySort (fun a b => key b - key a) (items.map f) = ranked.map f ∧
      ranked.Perm items ∧
      ∀ k : Int, ranked.filter (fun p => key (f p) == k) =
        items.filter (fun p => key (f p) == k) := by
  refine ⟨arraySort (fun p q => key (f q) - key (f p)) items, ?_, ?_, ?_⟩
  · unfold arraySort
    exact (List.map_insertionSort _ _ f items (fun _ _ _ _ => Iff.rfl)).symm
  · exact (arraySort_descending (fun p => key (f p)) items).1
  · exact (arraySort_descending (fun p => key (f p)) items).2.2

/-- C16. The list returned by `applyUserPreferences` is in non-increasing order of
`genreMatchScore + artistMatchScore + undergroundScore` (absent match scores counted as 0),
and tracks of equal key keep their input order.  In full: the list is a rearrangement of
the input tracks after steps 1 to 3, position by position, without those flagged
`filtered`; for each key value the tracks of that key are those of the input, in input
order; each returned track stems from an input position, and of two returned tracks with
equal keys the earlier one stems from the smaller input position; steps 1 to 3 leave the
title, artist, genre, listeners, description and artwork of a track as they are. -/
theorem applyUserPreferences_sorted (lc : Str → Str) (draws : Nat → Nat)
    (tracks : List Track) (preferences : UserPreferences) :
    (applyUserPreferences lc draws tracks preferences).Perm
        ((tracks.enum.map (fun p => personalizedAt lc draws preferences p.1 p.2)).filter
          (fun track => track.filtered != some true)) ∧
      (applyUserPreferences lc draws tracks preferences).Pairwise (fun a b =>
        rankKey b ≤ rankKey a) ∧
      (∀ k : Int,
        (applyUserPreferences lc draws tracks preferences).filter (fun a => rankKey a == k) =
          ((tracks.enum.map (fun p => personalizedAt lc draws preferences p.1 p.2)).filter
            (fun track => track.filtered != some true)).filter (fun a => rankKey a == k)) ∧
      (∃ ranked : List (Nat × Track),
        applyUserPreferences lc draws tracks preferences =
          ranked.map (fun p => personalizedAt lc draws preferences p.1 p.2) ∧
        ranked.Perm (tracks.enum.filter (fun p =>
          (personalizedAt lc draws preferences p.1 p.2).filtered != some true)) ∧
        (∀ p ∈ ranked, tracks[p.1]? = some p.2) ∧
        ranked.Pairwise (fun p q =>
          rankKey (personalizedAt lc draws preferences p.1 p.2) =
            rankKey (personalizedAt lc draws preferences q.1 q.2) → p.1 < q.1)) ∧
      ∀ (i : Nat) (track : Track),
        (personalizedAt lc draws preferences i track).title = track.title ∧
        (personalizedAt lc draws preferences i track).artist = track.artist ∧
        (personalizedAt lc draws preferences i track).genre = track.genre ∧
        (personalizedAt lc draws preferences i track).listeners = track.listeners ∧
        (personalizedAt lc draws preferences i track).description = track.description ∧
        (personalizedAt lc draws preferences i track).artwork = track.artwork := by
  have hsort := arraySort_descending rankKey (personalizedTracks lc draws tracks preferences)
  have heq := personalizedTracks_eq lc draws tracks preferences
  refine ⟨?_, hsort.2.1, ?_, ?_, personalizedAt_fields lc draws preferences⟩
  · rw [← heq]
    exact hsort.1
  · intro k
    rw [← heq]
    exact hsort.2.2 k
  · have hmap : personalizedTracks lc draws tracks preferences =
        (tracks.enum.filter (fun p =>
          (personalizedAt lc draws preferences p.1 p.2).filtered != some true)).map
          (fun p => personalizedAt lc draws preferences p.1 p.2) := by
      rw [heq, List.filter_map]
      rfl
    obtain ⟨ranked, hr, hperm, hfilter⟩ := arraySort_positions rankKey
      (fun p : Nat × Track => personalizedAt lc draws preferences p.1 p.2)
      (tracks.enum.filter (fun p =>
        (personalizedAt lc draws preferences p.1 p.2).filtered != some true))
    refine ⟨ranked, ?_, hperm, ?_, ?_⟩
    · unfold applyUserPreferences
      rw [hmap]
      exact hr
    · intro p hp
      have h1 : p ∈ tracks.enum := (List.mem_filter.mp (hperm.subset hp)).1
      exact List.mem_enum_iff_getElem?.mp h1
    · rw [List.pairwise_iff_forall_sublist]
      intro p q hpq hkey
      have h1 : ([p, q].filter (fun r =>
          rankKey (personalizedAt lc draws preferences r.1 r.2) ==
            rankKey (personalizedAt lc draws preferences p.1 p.2))).Sublist
          (ranked.filter (fun r =>
            rankKey (personalizedAt lc draws preferences r.1 r.2) ==
              rankKey (personalizedAt lc draws preferences p.1 p.2))) := hpq.filter _
      rw [hfilter] at h1
      have h2 : [p, q].filter (fun r =>
          rankKey (personalizedAt lc draws preferences r.1 r.2) ==
            rankKey (personalizedAt lc draws preferences p.1 p.2)) = [p, q] := by
        simp [hkey]
      rw [h2] at h1
      have h3 : [p, q].Sublist tracks.enum :=
        (h1.trans (List.filter_sublist _)).trans (List.filter_sublist _)
      exact (List.pairwise_iff_forall_sublist.mp (enumFrom_pairwise_fst tracks 0)) h3

theorem undergroundThreshold_of_level (preferences : UserPreferences) (level : Int)
    (hl : preferences.undergroundLevel = some level) (h0 : level ≠ 0) :
    undergroundThreshold preferences = level := by
  unfold undergroundThreshold
  rw [hl]
  simp [h0]

theorem fitsPreference_iff (preferences : UserPreferences) (score : Int) :
    fitsPreference preferences score = true ↔
      (75 ≤ undergroundThreshold preferences → 60 ≤ score) ∧
      (50 ≤ undergroundThreshold preferences → undergroundThreshold preferences < 75 →
        30 ≤ score) := by
  unfold fitsPreference
  generalize undergroundThreshold preferences = threshold
  split_ifs with h1 h2
  · simp only [decide_eq_true_eq]
    constructor
    · intro h
      exact ⟨fun _ => h, fun _ _ => by omega⟩
    · intro h
      exact h.1 h1
  · simp only [decide_eq_true_eq]
    constructor
    · intro h
      exact ⟨fun _ => by omega, fun _ _ => h⟩
    · intro h
      exact h.2 h2 (by omega)
  · simp only [true_iff]
    exact ⟨fun _ => by omega, fun _ _ => by omega⟩

theorem calculateUndergroundScore_scoreGenreMatch (lc : Str → Str) (favoriteGenres : List Str)
    (discoveryDays : Nat) (track : Track) :
    (calculateUndergroundScore lc discoveryDays (scoreGenreMatch lc favoriteGenres track)).1 =
      (calculateUndergroundScore lc discoveryDays track).1 := by
  rfl

theorem personalizeTrack_filtered (lc : Str → Str) (preferences : UserPreferences)
    (discoveryDays : Nat) (track : Track) (hfresh : track.filtered = none) :
    ((personalizeTrack lc preferences discoveryDays track).filtered != some true) =
      fitsPreference preferences (calculateUndergroundScore lc discoveryDays track).1 := by
  unfold personalizeTrack
  simp only
  cases hf : fitsPreference preferences (calculateUndergroundScore lc discoveryDays track).1 <;>
    by_cases hl : preferences.favoriteArtists.length > 0 <;>
    cases hfav : preferences.favoriteArtists.any (fun favArtist => lc favArtist == lc track.artist) <;>
    simp [hl, hfav, calculateUndergroundScore, hfresh]

/-- A single fresh track is kept by `applyUserPreferences` exactly when its score fits the
preference. -/
theorem applyUserPreferences_single (lc : Str → Str) (draws : Nat → Nat) (track : Track)
    (preferences : UserPreferences) (hfresh : track.filtered = none) :
    (applyUserPreferences lc draws [track] preferences ≠ [] ↔
      fitsPreference preferences (calculateUndergroundScore lc (draws 0) track).1 = true) := by
  unfold applyUserPreferences personalizedTracks arraySort
  by_cases hg : preferences.favoriteGenres.length > 0
  · have hfresh2 : (scoreGenreMatch lc preferences.favoriteGenres track).filtered = none :=
      hfresh
    have h := personalizeTrack_filtered lc preferences (draws 0)
      (scoreGenreMatch lc preferences.favoriteGenres track) hfresh2
    rw [calculateUndergroundScore_scoreGenreMatch] at h
    simp only [hg, if_true, List.map_cons, List.map_nil, mapWithDraws, List.filter_cons, h]
    cases fitsPreference preferences (calculateUndergroundScore lc (draws 0) track).1 <;> simp
  · have h := personalizeTrack_filtered lc preferences (draws 0) track hfresh
    simp only [hg, if_false, mapWithDraws, List.filter_cons, h]
    cases fitsPreference preferences (calculateUndergroundScore lc (draws 0) track).1 <;> simp


theorem calculateDiscoveryBonus_range (discoveryDays : Nat) :
    0 ≤ calculateDiscoveryBonus discoveryDays ∧ calculateDiscoveryBonus discoveryDays ≤ 20 := by
  unfold calculateDiscoveryBonus
  split_ifs <;> omega

theorem calculateUndergroundScore_fst (lc : Str → Str) (discoveryDays : Nat) (track : Track) :
    (calculateUndergroundScore lc discoveryDays track).1 =
      max 0 (min 100 (listenerPoints (listenerCount track) + analyzeGenre lc track.genre +
        calculateDiscoveryBonus discoveryDays + detectIndependentLabel track +
        analyzeEngagement track)) := rfl

/-- C13, evaluated at the failing input.  With `undergroundLevel = 0` the track with
2,000,000 listeners and genre "pop" (score at most 10) is dropped for every discovery draw,
although the level is below 50; with level 1 the same track is kept.  The level 0 is
replaced by the default 50. -/
theorem applyUserPreferences_level_zero (draws : Nat → Nat) :
    applyUserPreferences asciiLower draws [sampleTrack "Aa" "x" "pop" "2000000"]
        { undergroundLevel := some 0 } = [] ∧
      applyUserPreferences asciiLower draws [sampleTrack "Aa" "x" "pop" "2000000"]
        { undergroundLevel := some 1 } ≠ [] := by
  have hscore : (calculateUndergroundScore asciiLower (draws 0)
      (sampleTrack "Aa" "x" "pop" "2000000")).1 ≤ 10 := by
    rw [calculateUndergroundScore_fst]
    have h1 : listenerPoints (listenerCount (sampleTrack "Aa" "x" "pop" "2000000")) = 0 := by
      decide
    have h2 : analyzeGenre asciiLower (sampleTrack "Aa" "x" "pop" "2000000").genre = -10 := by
      decide
    have h3 : detectIndependentLabel (sampleTrack "Aa" "x" "pop" "2000000") = 0 := by decide
    have h4 : analyzeEngagement (sampleTrack "Aa" "x" "pop" "2000000") = 0 := by decide
    have h5 := calculateDiscoveryBonus_range (draws 0)
    rw [h1, h2, h3, h4]
    omega
  constructor
  · by_contra hne
    have hfit := (applyUserPreferences_single asciiLower draws _ _ rfl).mp hne
    rw [fitsPreference_iff] at hfit
    have ht : undergroundThreshold { undergroundLevel := some 0 } = 50 := by decide
    rw [ht] at hfit
    have := hfit.2 (by omega) (by omega)
    omega
  · rw [applyUserPreferences_single asciiLower draws _ _ rfl, fitsPreference_iff]
    have ht : undergroundThreshold { undergroundLevel := some 1 } = 1 := by decide
    rw [ht]
    exact ⟨fun h => by omega, fun h => by omega⟩

/-- C14, evaluated at the failing input.  With `undergroundLevel = 90` the track of the
favorite artist "Aa" (60,000 listeners, genre "indie", score at most 50) is absent from
the output of `applyUserPreferences` for every discovery draw; for the draw 100 its score
is 40 and it carries `artistMatchScore = 5` and the flag `filtered`. -/
theorem applyUserPreferences_favorite_dropped (draws : Nat → Nat) :
    applyUserPreferences asciiLower draws [sampleTrack "Aa" "x" "indie" "60000"]
        { undergroundLevel := some 90, favoriteArtists := [js "aa"] } = [] ∧
      (personalizeTrack asciiLower { undergroundLevel := some 90, favoriteArtists := [js "aa"] }
        100 (sampleTrack "Aa" "x" "indie" "60000")).undergroundScore = some 40 ∧
      (personalizeTrack asciiLower { undergroundLevel := some 90, favoriteArtists := [js "aa"] }
        100 (sampleTrack "Aa" "x" "indie" "60000")).artistMatchScore = some 5 ∧
      (personalizeTrack asciiLower { undergroundLevel := some 90, favoriteArtists := [js "aa"] }
        100 (sampleTrack "Aa" "x" "indie" "60000")).filtered = some true := by
  refine ⟨?_, by decide, by decide, by decide⟩
  have hscore : (calculateUndergroundScore asciiLower (draws 0)
      (sampleTrack "Aa" "x" "indie" "60000")).1 ≤ 50 := by
    rw [calculateUndergroundScore_fst]
    have h1 : listenerPoints (listenerCount (sampleTrack "Aa" "x" "indie" "60000")) = 10 := by
      decide
    have h2 : analyzeGenre asciiLower (sampleTrack "Aa" "x" "indie" "60000").genre = 15 := by
      decide
    have h3 : detectIndependentLabel (sampleTrack "Aa" "x" "indie" "60000") = 5 := by decide
    have h4 : analyzeEngagement (sampleTrack "Aa" "x" "indie" "60000") = 0 := by decide
    have h5 := calculateDiscoveryBonus_range (draws 0)
    rw [h1, h2, h3, h4]
    omega
  by_contra hne
  have hfit := (applyUserPreferences_single asciiLower draws _ _ rfl).mp hne
  rw [fitsPreference_iff] at hfit
  have ht : undergroundThreshold { undergroundLevel := some 90, favoriteArtists := [js "aa"] }
      = 90 := by decide
  rw [ht] at hfit
  have := hfit.1 (by omega)
  omega

/-- C15, evaluated at the failing input.  For the genre "ambient, drone, noise" and the one
favorite genre "ambient", `applyUserPreferences` writes `genreMatchScore = 60`, 20 for each
of the three track genres, where one overlapping favorite genre would give 20. -/
theorem applyUserPreferences_genreMatchScore_counts_track_genres :
    (applyUserPreferences asciiLower (fun _ => 200)
        [sampleTrack "Aa" "x" "ambient, drone, noise" "5000"]
        { favoriteGenres := [js "ambient"] }).map (fun t => t.genreMatchScore) = [some 60] ∧
      genreMatchScoreAsSpecified asciiLower [js "ambient"]
        (sampleTrack "Aa" "x" "ambient, drone, noise" "5000") = 20 := by
  decide

/-- C17, evaluated at the failing input.  `applyUserPreferences` ranks the track of "Aa"
(key 100) before the track of "Bb" (key 70); the list that `loadRecommendations` stores as
`currentRecommendations` has "Bb" first: its keys are 70, 100, in increasing order. -/
theorem loadRecommendations_order_lost :
    (applyUserPreferences asciiLower (fun _ => 200)
        [sampleTrack "Bb" "y" "ambient" "5000", sampleTrack "Aa" "x" "indie, indie rock" "60000"]
        { favoriteGenres := [js "indie"], undergroundLevel := some 50,
          favoriteArtists := [js "aa"] }).map (fun t => (t.artist, rankKey t)) =
        [(js "Aa", 100), (js "Bb", 70)] ∧
      (loadRecommendations asciiLower (fun _ => 200) (fun _ => 200) (fun _ => 200) 2
        [sampleTrack "Bb" "y" "ambient" "5000", sampleTrack "Aa" "x" "indie, indie rock" "60000"]
        { favoriteGenres := [js "indie"], undergroundLevel := some 50,
          favoriteArtists := [js "aa"] } []).map (fun t => (t.artist, rankKey t)) =
        [(js "Bb", 70), (js "Aa", 100)] := by
  decide

/-! ## Pagination -/

theorem displayRecommendations_succ (recs : List Track) (q : Nat) :
    displayRecommendations recs ((q : Int) + 1) = (recs.drop (20 * q)).take 20 := by
  unfold displayRecommendations arraySlice
  have h1 : ¬ ((q : Int) + 1 - 1) * 20 < 0 := by omega
  have h2 : ¬ ((q : Int) + 1 - 1) * 20 + 20 < 0 := by omega
  simp only [h1, h2, if_false]
  by_cases hq : 20 * q ≤ recs.length
  · have e1 : (min (((q : Int) + 1 - 1) * 20) (recs.length : Int)).toNat = 20 * q := by omega
    rw [e1, List.take_eq_take]
    simp only [List.length_drop]
    omega
  · have e1 : (min (((q : Int) + 1 - 1) * 20) (recs.length : Int)).toNat = recs.length := by
      omega
    rw [e1, List.drop_of_length_le (le_refl _), List.drop_of_length_le (by omega)]
    simp

theorem flatMap_pages (recs : List Track) (m : Nat) :
    (List.range m).flatMap (fun q => displayRecommendations recs ((q : Int) + 1)) =
      recs.take (20 * m) := by
  induction m with
  | zero => simp
  | succ m ih =>
    rw [List.range_succ, List.flatMap_append, ih]
    simp only [List.flatMap_cons, List.flatMap_nil, List.append_nil]
    rw [displayRecommendations_succ, Nat.mul_succ, List.take_add]

theorem displayRecommendations_nonpositive_or_large (recs : List Track) (p : Int)
    (h : p = 0 ∨ ((recs.length + 19) / 20 : Nat) < p) :
    displayRecommendations recs p = [] := by
  rcases h with h | h
  · subst h
    unfold displayRecommendations arraySlice
    simp only [zero_sub, neg_mul, one_mul, Left.neg_neg_iff, Nat.ofNat_pos, if_true,
      neg_add_cancel, lt_self_iff_false, if_false]
    have e : (min (0 : Int) (recs.length : Int) - max ((recs.length : Int) + -20) 0).toNat = 0 := by
      omega
    rw [e]
    simp
  · obtain ⟨q, hq⟩ : ∃ q : Nat, p = (q : Int) + 1 := ⟨(p - 1).toNat, by omega⟩
    rw [hq, displayRecommendations_succ, List.drop_of_length_le (by omega)]
    simp

theorem displayRecommendations_negative (recs : List Track) (q : Nat) :
    displayRecommendations recs (-((q : Int) + 1)) =
      (recs.drop (recs.length - 20 * (q + 2))).take
        ((recs.length - 20 * (q + 1)) - (recs.length - 20 * (q + 2))) := by
  unfold displayRecommendations arraySlice
  have h1 : (-((q : Int) + 1) - 1) * 20 < 0 := by omega
  have h2 : (-((q : Int) + 1) - 1) * 20 + 20 < 0 := by omega
  simp only [h1, h2, if_true]
  have e1 : (max ((recs.length : Int) + (-((q : Int) + 1) - 1) * 20) 0).toNat =
      recs.length - 20 * (q + 2) := by omega
  have e2 : (max ((recs.length : Int) + ((-((q : Int) + 1) - 1) * 20 + 20)) 0 -
      max ((recs.length : Int) + (-((q : Int) + 1) - 1) * 20) 0).toNat =
      (recs.length - 20 * (q + 1)) - (recs.length - 20 * (q + 2)) := by omega
  rw [e1, e2]


/-- C18. For a list of `n` recommendations and a page `p` with `1 ≤ p ≤ ceil(n/20)`,
`displayRecommendations` shows the items at the 1-based positions `(p-1)*20 + 1` to
`min(20*p, n)`, in order: the page has between 1 and 20 items, its item `i` is item
`(p-1)*20 + i` of the list, and the pages `1 .. ceil(n/20)` in order concatenate to the
whole list. -/
theorem displayRecommendations_page (recs : List Track) (p : Nat) (hp1 : 1 ≤ p)
    (hp2 : p ≤ (recs.length + 19) / 20) :
    (displayRecommendations recs (p : Int)).length =
        min (20 * p) recs.length - (p - 1) * 20 ∧
      0 < (displayRecommendations recs (p : Int)).length ∧
      (displayRecommendations recs (p : Int)).length ≤ 20 ∧
      (∀ i : Nat, (displayRecommendations recs (p : Int))[i]? =
        if i < min (20 * p) recs.length - (p - 1) * 20 then recs[(p - 1) * 20 + i]?
        else none) ∧
      (List.range ((recs.length + 19) / 20)).flatMap
        (fun q => displayRecommendations recs ((q : Int) + 1)) = recs := by
  obtain ⟨q, rfl⟩ : ∃ q : Nat, p = q + 1 := ⟨p - 1, by omega⟩
  have hpage : displayRecommendations recs ((q + 1 : Nat) : Int) =
      (recs.drop (20 * q)).take 20 := by
    rw [← displayRecommendations_succ]
    rfl
  have hlen : (displayRecommendations recs ((q + 1 : Nat) : Int)).length =
      min (20 * (q + 1)) recs.length - (q + 1 - 1) * 20 := by
    rw [hpage, List.length_take, List.length_drop]
    omega
  refine ⟨hlen, by omega, by omega, ?_, ?_⟩
  · intro i
    rw [hpage, List.getElem?_take]
    by_cases hi : i < min (20 * (q + 1)) recs.length - (q + 1 - 1) * 20
    · have hi20 : i < 20 := by omega
      rw [if_pos hi20, if_pos hi, List.getElem?_drop]
      congr 1
      omega
    · rw [if_neg hi]
      by_cases hi20 : i < 20
      · rw [if_pos hi20, List.getElem?_drop, List.getElem?_eq_none]
        omega
      · rw [if_neg hi20]
  · rw [flatMap_pages, List.take_of_length_le]
    omega

theorem displayRecommendations_page_witness :
    (displayRecommendations ((List.range 45).map numberedTrack) 3).length = 5 ∧
      (displayRecommendations ((List.range 45).map numberedTrack) 3).length ≤ 20 ∧
      displayRecommendations ((List.range 45).map numberedTrack) 3 =
        [numberedTrack 40, numberedTrack 41, numberedTrack 42, numberedTrack 43,
          numberedTrack 44] :=
  ⟨(displayRecommendations_page ((List.range 45).map numberedTrack) 3 (by decide)
      (by decide)).1,
    (displayRecommendations_page ((List.range 45).map numberedTrack) 3 (by decide)
      (by decide)).2.2.1,
    by decide⟩

/-- C19, as stated, fails.  For 45 recommendations the page -1 lies outside
`1 .. ceil(45/20)`, and the slice computed for it holds 20 tracks: a negative start index
counts from the end of the list. -/
theorem displayRecommendations_negative_page_fails :
    ¬ (∀ (recs : List Track) (p : Int), p < 1 ∨ ((recs.length + 19) / 20 : Nat) < p →
        displayRecommendations recs p = []) := by
  intro h
  have h1 := h ((List.range 45).map numberedTrack) (-1) (Or.inl (by decide))
  revert h1
  decide

/-- C19, amended. For a list of `n` recommendations, the slice that
`displayRecommendations` computes is empty for the page 0 and for every page above
`ceil(n/20)`; for a negative page `-k` it is the slice counted from the end of the list,
which is empty exactly when `n ≤ 20 * k`.  The slice is a total function, no error is
raised. -/
theorem displayRecommendations_out_of_range (recs : List Track) :
    (∀ p : Int, p = 0 ∨ ((recs.length + 19) / 20 : Nat) < p →
        displayRecommendations recs p = []) ∧
      (∀ k : Nat, 1 ≤ k →
        (displayRecommendations recs (-(k : Int)) = [] ↔ recs.length ≤ 20 * k)) := by
  refine ⟨displayRecommendations_nonpositive_or_large recs, ?_⟩
  intro k hk
  obtain ⟨q, rfl⟩ : ∃ q : Nat, k = q + 1 := ⟨k - 1, by omega⟩
  have hneg : displayRecommendations recs (-((q + 1 : Nat) : Int)) =
      (recs.drop (recs.length - 20 * (q + 2))).take
        ((recs.length - 20 * (q + 1)) - (recs.length - 20 * (q + 2))) := by
    rw [← displayRecommendations_negative]
    rfl
  rw [hneg, ← List.length_eq_zero, List.length_take, List.length_drop]
  omega

theorem displayRecommendations_out_of_range_witness :
    displayRecommendations ((List.range 45).map numberedTrack) 4 = [] ∧
      (displayRecommendations ((List.range 45).map numberedTrack) (-3) = [] ↔
        ((List.range 45).map numberedTrack).length ≤ 20 * 3) :=
  ⟨(displayRecommendations_out_of_range ((List.range 45).map numberedTrack)).1 4
      (Or.inr (by decide)),
    (displayRecommendations_out_of_range ((List.range 45).map numberedTrack)).2 3
      (by decide)⟩

/-! ## Classifier -/

theorem lowersAscii_asciiLower : LowersAscii asciiLower := by
  intro s w _ hw
  obtain ⟨pre, post, rfl⟩ := hw
  exact ⟨asciiLower pre, asciiLower post, by simp [asciiLower]⟩

theorem hasUnofficialMarks_of_indicator (lc : Str → Str) (artist title indicator : Str)
    (hmem : indicator ∈ unofficialIndicators) (hin : indicator <:+: lc title) :
    hasUnofficialMarks lc artist title = true := by
  unfold hasUnofficialMarks
  have h : unofficialIndicators.any (fun indicator => includes (lc title) indicator) = true :=
    (any_includes_iff unofficialIndicators (lc title)).mpr ⟨indicator, hmem, hin⟩
  simp only [h, if_true]

theorem isUnofficialRelease_of_not_mainstream (lc : Str → Str) (lookup : ArtistLookup)
    (artist title : Str) (hmain : isMainstreamArtist lookup artist = .ok false) :
    isUnofficialRelease lc lookup artist title = hasUnofficialMarks lc artist title := by
  unfold isUnofficialRelease
  rw [hmain]

theorem ascii_of_asciiLower_live (w : Str) (hw : asciiLower w = js "live") :
    ∀ c ∈ w, c < 128 := by
  intro c hc
  have hmem : (if 65 ≤ c ∧ c ≤ 90 then c + 32 else c) ∈ js "live" := by
    rw [← hw]
    exact List.mem_map_of_mem _ hc
  have hl : js "live" = [108, 105, 118, 101] := by decide
  rw [hl] at hmem
  simp only [List.mem_cons, List.mem_singleton, List.not_mem_nil, or_false] at hmem
  split at hmem <;> omega

/-- C20. For an artist whose mainstream check is negative: a title that contains a
parenthetical with the word `live` in any mix of cases is classified unofficial; and, when
the artist name matches no suspicious-uploader pattern, a title whose lower-casing contains
no indicator word and which matches no parenthetical pattern is not. -/
theorem isUnofficialRelease_live_and_plain (lc : Str → Str) (lookup : ArtistLookup)
    (artist : Str) (hlc : LowersAscii lc)
    (hmain : isMainstreamArtist lookup artist = .ok false) :
    (∀ pre inner1 w inner2 post : Str, asciiLower w = js "live" →
        isUnofficialRelease lc lookup artist
          (pre ++ js "(" ++ inner1 ++ w ++ inner2 ++ js ")" ++ post) = true) ∧
      (∀ title : Str, matchesSuspiciousArtist artist = false →
        (∀ indicator ∈ unofficialIndicators, ¬ indicator <:+: lc title) →
        (∀ word ∈ coverPatternWords, matchesParenPattern word title = false) →
        isUnofficialRelease lc lookup artist title = false) := by
  constructor
  · intro pre inner1 w inner2 post hw
    rw [isUnofficialRelease_of_not_mainstream lc lookup artist _ hmain]
    apply hasUnofficialMarks_of_indicator lc artist _ (js "live") (by decide)
    rw [← hw]
    apply hlc _ w (ascii_of_asciiLower_live w hw)
    exact ⟨pre ++ js "(" ++ inner1, inner2 ++ js ")" ++ post, by simp⟩
  · intro title hartist hind hpat
    rw [isUnofficialRelease_of_not_mainstream lc lookup artist _ hmain]
    unfold hasUnofficialMarks
    have h1 : unofficialIndicators.any (fun indicator => includes (lc title) indicator)
        = false := by
      rw [Bool.eq_false_iff]
      intro h
      obtain ⟨ind, hmem, hin⟩ := (any_includes_iff unofficialIndicators (lc title)).mp h
      exact hind ind hmem hin
    have h2 : coverPatternWords.any (fun word => matchesParenPattern word title) = false := by
      rw [Bool.eq_false_iff]
      intro h
      obtain ⟨word, hmem, hw⟩ := List.any_eq_true.mp h
      rw [hpat word hmem] at hw
      exact Bool.false_ne_true hw
    simp only [h1, h2, Bool.false_eq_true, if_false, hartist]

theorem isUnofficialRelease_live_and_plain_witness :
    isUnofficialRelease asciiLower (fun _ => Fetched.notOk) (js "Artist")
        (js "Song (Live)") = true ∧
      isUnofficialRelease asciiLower (fun _ => Fetched.notOk) (js "Artist")
        (js "Song") = false :=
  ⟨(isUnofficialRelease_live_and_plain asciiLower (fun _ => Fetched.notOk) (js "Artist")
      lowersAscii_asciiLower rfl).1 (js "Song ") [] (js "Live") [] [] (by decide),
    (isUnofficialRelease_live_and_plain asciiLower (fun _ => Fetched.notOk) (js "Artist")
      lowersAscii_asciiLower rfl).2 (js "Song") (by decide)
      (by
        intro indicator hmem
        rw [← includes_iff]
        revert indicator
        decide)
      (by decide)⟩

/-! ## Classic edit distance -/

theorem editDistance_nil_left (t : Str) : editDistance [] t = t.length := by
  rw [editDistance]

theorem editDistance_nil_right (s : Str) : editDistance s [] = s.length := by
  cases s <;> simp [editDistance]

theorem editDistance_cons_cons (a b : Nat) (s t : Str) :
    editDistance (a :: s) (b :: t) =
      min (editDistance s (b :: t) + 1)
        (min (editDistance (a :: s) t + 1) (editDistance s t + substitutionCost a b)) := by
  rw [editDistance]

theorem substitutionCost_le_one (a b : Nat) : substitutionCost a b ≤ 1 := by
  unfold substitutionCost
  split <;> omega

theorem editDistance_cons_left_le (a : Nat) (s t : Str) :
    editDistance (a :: s) t ≤ editDistance s t + 1 := by
  cases t with
  | nil => simp [editDistance_nil_right]
  | cons b t =>
    have e := editDistance_cons_cons a b s t
    omega

theorem editDistance_cons_right_le (b : Nat) (s t : Str) :
    editDistance s (b :: t) ≤ editDistance s t + 1 := by
  cases s with
  | nil => simp [editDistance_nil_left]
  | cons a s =>
    have e := editDistance_cons_cons a b s t
    omega

theorem editDistance_le_cons_right (b : Nat) (s t : Str) :
    editDistance s t ≤ editDistance s (b :: t) + 1 := by
  induction s generalizing t b with
  | nil =>
    simp only [editDistance_nil_left, List.length_cons]
    omega
  | cons a s ih =>
    have e := editDistance_cons_cons a b s t
    have h1 := editDistance_cons_left_le a s t
    have h2 := ih b t
    omega

theorem editDistance_le_cons_left (a : Nat) (s t : Str) :
    editDistance s t ≤ editDistance (a :: s) t + 1 := by
  induction t generalizing s a with
  | nil =>
    simp only [editDistance_nil_right, List.length_cons]
    omega
  | cons b t ih =>
    have e := editDistance_cons_cons a b s t
    have h1 := editDistance_cons_right_le b s t
    have h2 := ih a s
    omega

theorem min3_spec (x y z : Nat) :
    min x (min y z) ≤ x ∧ min x (min y z) ≤ y ∧ min x (min y z) ≤ z ∧
      (min x (min y z) = x ∨ min x (min y z) = y ∨ min x (min y z) = z) := by
  have h1 := Nat.min_le_left x (min y z)
  have h2 := Nat.min_le_right x (min y z)
  have h3 := Nat.min_le_left y z
  have h4 := Nat.min_le_right y z
  have h5 : min x (min y z) = x ∨ min x (min y z) = min y z := by
    rcases Nat.le_total x (min y z) with h | h
    · exact Or.inl (Nat.min_eq_left h)
    · exact Or.inr (Nat.min_eq_right h)
  have h6 : min y z = y ∨ min y z = z := by
    rcases Nat.le_total y z with h | h
    · exact Or.inl (Nat.min_eq_left h)
    · exact Or.inr (Nat.min_eq_right h)
  refine ⟨h1, by omega, by omega, ?_⟩
  rcases h5 with h | h
  · exact Or.inl h
  · rcases h6 with h' | h'
    · exact Or.inr (Or.inl (h.trans h'))
    · exact Or.inr (Or.inr (h.trans h'))

theorem eq_min3 (g x y z : Nat) (h1 : g ≤ x) (h2 : g ≤ y) (h3 : g ≤ z)
    (h4 : g = x ∨ g = y ∨ g = z) : g = min x (min y z) := by
  have h := min3_spec x y z
  omega

theorem editDistance_cons_cons_spec (a b : Nat) (s t : Str) :
    editDistance (a :: s) (b :: t) ≤ editDistance s (b :: t) + 1 ∧
      editDistance (a :: s) (b :: t) ≤ editDistance (a :: s) t + 1 ∧
      editDistance (a :: s) (b :: t) ≤ editDistance s t + substitutionCost a b ∧
      (editDistance (a :: s) (b :: t) = editDistance s (b :: t) + 1 ∨
        editDistance (a :: s) (b :: t) = editDistance (a :: s) t + 1 ∨
        editDistance (a :: s) (b :: t) = editDistance s t + substitutionCost a b) := by
  rw [editDistance_cons_cons]
  exact min3_spec _ _ _

theorem levRec_eq_editDistance (s t : Str) : levRec s t = editDistance s t := by
  induction s generalizing t with
  | nil => rw [levRec_nil_left, editDistance_nil_left]
  | cons a s ihs =>
    induction t with
    | nil => rw [levRec_nil_right, editDistance_nil_right]
    | cons b t iht =>
      have e := editDistance_cons_cons_spec a b s t
      have h1 := editDistance_le_cons_right b s t
      have h2 := editDistance_le_cons_left a s t
      have hc := substitutionCost_le_one a b
      rw [levRec_cons_cons, cell, ihs t, iht, ihs (b :: t)]
      by_cases hab : a = b
      · have hz : substitutionCost a b = 0 := by simp [substitutionCost, hab]
        rw [if_pos hab]
        omega
      · have hz : substitutionCost a b = 1 := by simp [substitutionCost, hab]
        rw [if_neg hab]
        have m := min3_spec (editDistance s t + 1) (editDistance (a :: s) t + 1)
          (editDistance s (b :: t) + 1)
        omega

/-- The recurrence of the edit distance at the ends of the two strings. -/
theorem editDistance_snoc_snoc (a b : Nat) (s t : Str) :
    editDistance (s ++ [a]) (t ++ [b]) =
      min (editDistance s (t ++ [b]) + 1)
        (min (editDistance (s ++ [a]) t + 1) (editDistance s t + substitutionCost a b)) := by
  induction s generalizing t with
  | nil =>
    induction t with
    | nil => exact editDistance_cons_cons a b [] []
    | cons y t iht =>
      have e1 := editDistance_cons_cons_spec a y [] (t ++ [b])
      have e2 := editDistance_cons_cons_spec a y [] t
      have n1 : editDistance [] (y :: (t ++ [b])) = t.length + 2 := by
        simp [editDistance_nil_left]
      have n2 : editDistance [] (t ++ [b]) = t.length + 1 := by simp [editDistance_nil_left]
      have n3 : editDistance [] (y :: t) = t.length + 1 := by simp [editDistance_nil_left]
      have n4 : editDistance [] t = t.length := editDistance_nil_left t
      have e3 := min3_spec (editDistance [] (t ++ [b]) + 1) (editDistance ([] ++ [a]) t + 1)
        (editDistance [] t + substitutionCost a b)
      rw [← iht] at e3
      simp only [List.nil_append, List.cons_append] at e3 ⊢
      apply eq_min3 <;> omega
  | cons x s ihs =>
    induction t with
    | nil =>
      have e1 := editDistance_cons_cons_spec x b (s ++ [a]) []
      have e2 := editDistance_cons_cons_spec x b s []
      have n1 : editDistance (x :: (s ++ [a])) [] = s.length + 2 := by
        simp [editDistance_nil_right]
      have n2 : editDistance (s ++ [a]) [] = s.length + 1 := by simp [editDistance_nil_right]
      have n3 : editDistance (x :: s) [] = s.length + 1 := by simp [editDistance_nil_right]
      have n4 : editDistance s [] = s.length := editDistance_nil_right s
      have e3 := min3_spec (editDistance s ([] ++ [b]) + 1) (editDistance (s ++ [a]) [] + 1)
        (editDistance s [] + substitutionCost a b)
      rw [← ihs []] at e3
      simp only [List.nil_append, List.cons_append] at e3 ⊢
      apply eq_min3 <;> omega
    | cons y t iht =>
      have e1 := editDistance_cons_cons_spec x y (s ++ [a]) (t ++ [b])
      have e2 := editDistance_cons_cons_spec x y s (t ++ [b])
      have e3 := editDistance_cons_cons_spec x y (s ++ [a]) t
      have e4 := editDistance_cons_cons_spec x y s t
      have e5 := min3_spec (editDistance s ((y :: t) ++ [b]) + 1)
        (editDistance (s ++ [a]) (y :: t) + 1) (editDistance s (y :: t) + substitutionCost a b)
      rw [← ihs (y :: t)] at e5
      have e6 := min3_spec (editDistance (x :: s) (t ++ [b]) + 1)
        (editDistance ((x :: s) ++ [a]) t + 1) (editDistance (x :: s) t + substitutionCost a b)
      rw [← iht] at e6
      have e7 := min3_spec (editDistance s (t ++ [b]) + 1)
        (editDistance (s ++ [a]) t + 1) (editDistance s t + substitutionCost a b)
      rw [← ihs t] at e7
      simp only [List.cons_append] at e5 e6 ⊢
      obtain ⟨e1a, e1b, e1c, e1d⟩ := e1
      obtain ⟨e2a, e2b, e2c, e2d⟩ := e2
      obtain ⟨e3a, e3b, e3c, e3d⟩ := e3
      obtain ⟨e4a, e4b, e4c, e4d⟩ := e4
      obtain ⟨e5a, e5b, e5c, e5d⟩ := e5
      obtain ⟨e6a, e6b, e6c, e6d⟩ := e6
      obtain ⟨e7a, e7b, e7c, e7d⟩ := e7
      have g1 : editDistance (x :: (s ++ [a])) (y :: (t ++ [b])) ≤
          editDistance (x :: s) (y :: (t ++ [b])) + 1 := by
        clear e1d e3d e4d e5d e6d e7d
        omega
      have g2 : editDistance (x :: (s ++ [a])) (y :: (t ++ [b])) ≤
          editDistance (x :: (s ++ [a])) (y :: t) + 1 := by
        clear e1d e2d e4d e5d e6d e7d
        omega
      have g3 : editDistance (x :: (s ++ [a])) (y :: (t ++ [b])) ≤
          editDistance (x :: s) (y :: t) + substitutionCost a b := by
        clear e1d e2d e3d e5d e6d e7d
        omega
      apply eq_min3 _ _ _ _ g1 g2 g3
      clear e2d e3d e4d
      rcases e1d with h | h | h
      · clear e6d e7d
        omega
      · clear e5d e7d
        omega
      · clear e5d e6d
        omega

theorem editDistance_reverse (s t : Str) :
    editDistance s.reverse t.reverse = editDistance s t := by
  induction s generalizing t with
  | nil => simp [editDistance_nil_left]
  | cons a s ihs =>
    induction t with
    | nil => simp [editDistance_nil_right]
    | cons b t iht =>
      have h1 := ihs (b :: t)
      have h2 := ihs t
      simp only [List.reverse_cons] at h1 iht ⊢
      rw [editDistance_snoc_snoc, h1, iht, h2, editDistance_cons_cons]

theorem editDistance_comm (s t : Str) : editDistance s t = editDistance t s := by
  rw [← levRec_eq_editDistance, ← levRec_eq_editDistance, levRec_comm]

theorem editDistance_eq_levenshtein (s t : Str) :
    editDistance s t = levenshtein Levenshtein.defaultCost s t := by
  induction s generalizing t with
  | nil =>
    rw [editDistance_nil_left]
    induction t with
    | nil => simp
    | cons b t iht =>
      rw [levenshtein_nil_cons, ← iht]
      simp only [Levenshtein.defaultCost, List.length_cons]
      omega
  | cons a s ihs =>
    induction t with
    | nil =>
      rw [editDistance_nil_right, levenshtein_cons_nil, ← ihs, editDistance_nil_right]
      simp only [Levenshtein.defaultCost, List.length_cons]
      omega
    | cons b t iht =>
      rw [editDistance_cons_cons, levenshtein_cons_cons, ← ihs, ← ihs, ← iht]
      simp only [Levenshtein.defaultCost, substitutionCost]
      omega

/-- C26. For all strings `a` and `b`, the matrix loop of `levenshteinDistance(a, b)` returns
the classic edit distance of the full strings, defined by recursion with unit-cost
insertion, deletion and substitution; this is also the `levenshtein` distance of the
library for the default cost. -/
theorem levenshteinDistance_eq_editDistance (a b : Str) :
    levenshteinDistance a b = editDistance a b ∧
      levenshteinDistance a b = levenshtein Levenshtein.defaultCost a b := by
  have h : levenshteinDistance a b = editDistance a b := by
    rw [levenshteinDistance_eq_levRec, levRec_eq_editDistance, editDistance_reverse,
      editDistance_comm]
  exact ⟨h, h.trans (editDistance_eq_levenshtein a b)⟩

/-! ## Mainstream check and unofficial releases, continued -/

theorem isMainstreamArtist_ok (lookup : ArtistLookup) (artist : Str) :
    ∃ b : Bool, isMainstreamArtist lookup artist = .ok b := by
  unfold isMainstreamArtist
  cases getArtistInfo lookup artist with
  | none => exact ⟨false, rfl⟩
  | some info => exact ⟨_, rfl⟩

theorem isUnofficialRelease_of_ok (lc : Str → Str) (lookup : ArtistLookup)
    (artist title : Str) (b : Bool) (h : isMainstreamArtist lookup artist = .ok b) :
    isUnofficialRelease lc lookup artist title = (b || hasUnofficialMarks lc artist title) := by
  unfold isUnofficialRelease
  rw [h]
  cases b <;> simp

theorem isUnofficialRelease_of_indicator (lc : Str → Str) (lookup : ArtistLookup)
    (artist title indicator : Str) (hmem : indicator ∈ unofficialIndicators)
    (hin : indicator <:+: lc title) : isUnofficialRelease lc lookup artist title = true := by
  obtain ⟨b, hb⟩ := isMainstreamArtist_ok lookup artist
  rw [isUnofficialRelease_of_ok lc lookup artist title b hb,
    hasUnofficialMarks_of_indicator lc artist title indicator hmem hin]
  simp

theorem mem_removeDuplicateLoop_official (lc : Str → Str) (lookup : ArtistLookup)
    (tracks : List Track) (seen : SeenMap) (track : Track)
    (h : track ∈ removeDuplicateLoop lc lookup tracks seen []) :
    isUnofficialRelease lc lookup track.artist track.title = false := by
  induction tracks generalizing seen with
  | nil => simp [removeDuplicateLoop] at h
  | cons t rest ih =>
    rw [removeDuplicateLoop_cons] at h
    by_cases hs : skipsTrack lc lookup seen t = true
    · rw [if_pos hs] at h
      exact ih seen h
    · rw [if_neg hs] at h
      rcases List.mem_cons.mp h with rfl | h
      · unfold skipsTrack at hs
        simp only [Bool.or_eq_true, not_or, Bool.not_eq_true] at hs
        exact hs.1.2
      · exact ih _ h

/-- C28. For every artist and title, `isUnofficialRelease` returns true whenever the
lower-cased title contains an indicator of the fixed list as a substring, whole word or
not, and `removeDuplicateTracks` then keeps no track with that artist and title. -/
theorem isUnofficialRelease_substring (lc : Str → Str) (lookup : ArtistLookup)
    (artist title indicator : Str) (hmem : indicator ∈ unofficialIndicators)
    (hin : indicator <:+: lc title) :
    isUnofficialRelease lc lookup artist title = true ∧
      ∀ (tracks : List Track) (track : Track), track.artist = artist → track.title = title →
        track ∉ removeDuplicateTracks lc lookup tracks := by
  have hu := isUnofficialRelease_of_indicator lc lookup artist title indicator hmem hin
  refine ⟨hu, ?_⟩
  intro tracks track hartist htitle hin2
  have h := mem_removeDuplicateLoop_official lc lookup tracks [] track hin2
  rw [hartist, htitle, hu] at h
  exact Bool.noConfusion h

theorem isUnofficialRelease_substring_witness :
    (isUnofficialRelease asciiLower (fun _ => Fetched.notOk) (js "Burial") (js "Sleep") = true ∧
        burial "Sleep" ∉ removeDuplicateTracks asciiLower (fun _ => Fetched.notOk)
          [burial "Sleep", burial "Archangel"]) ∧
      (isUnofficialRelease asciiLower (fun _ => Fetched.notOk) (js "Burial") (js "Paradise")
          = true ∧
        burial "Paradise" ∉ removeDuplicateTracks asciiLower (fun _ => Fetched.notOk)
          [burial "Paradise", burial "Archangel"]) :=
  ⟨⟨(isUnofficialRelease_substring asciiLower (fun _ => Fetched.notOk) (js "Burial")
        (js "Sleep") (js "ep") (by decide) ⟨js "sle", [], by decide⟩).1,
      (isUnofficialRelease_substring asciiLower (fun _ => Fetched.notOk) (js "Burial")
        (js "Sleep") (js "ep") (by decide) ⟨js "sle", [], by decide⟩).2 _ _ rfl rfl⟩,
    ⟨(isUnofficialRelease_substring asciiLower (fun _ => Fetched.notOk) (js "Burial")
        (js "Paradise") (js "ad") (by decide) ⟨js "par", js "ise", by decide⟩).1,
      (isUnofficialRelease_substring asciiLower (fun _ => Fetched.notOk) (js "Burial")
        (js "Paradise") (js "ad") (by decide) ⟨js "par", js "ise", by decide⟩).2 _ _ rfl rfl⟩⟩

/-- C21, evaluated at the failing input.  `isMainstreamArtist` never ends with an error, so
the `catch` branch of `isUnofficialRelease` that consults `isKnownMainstreamArtist` is never
taken.  For a lookup that throws and for one that answers "not ok", "Taylor Swift" is on the
curated list, is not classified mainstream, and the title "Love Story" is not classified
unofficial. -/
theorem isUnofficialRelease_fallback_unreachable :
    (∀ (lookup : ArtistLookup) (artist : Str),
        ∃ b : Bool, isMainstreamArtist lookup artist = .ok b) ∧
      isKnownMainstreamArtist asciiLower (js "Taylor Swift") = true ∧
      isMainstreamArtist (fun _ => Fetched.threw) (js "Taylor Swift") = .ok false ∧
      isMainstreamArtist (fun _ => Fetched.notOk) (js "Taylor Swift") = .ok false ∧
      isUnofficialRelease asciiLower (fun _ => Fetched.threw) (js "Taylor Swift")
        (js "Love Story") = false ∧
      isUnofficialRelease asciiLower (fun _ => Fetched.notOk) (js "Taylor Swift")
        (js "Love Story") = false :=
  ⟨isMainstreamArtist_ok, by decide, rfl, rfl, by decide, by decide⟩

theorem statAtLeast_eq (field : Option Str) (threshold n : Int)
    (h : statCount field = some n) : statAtLeast field threshold = decide (n ≥ threshold) := by
  unfold statCount at h
  unfold statAtLeast
  simp only [h]

/-- C22. For an artist whose lookup succeeds with listener count `L` and play count `P`,
`isMainstreamArtist` is true exactly when `L ≥ 1,000,000` or `P ≥ 10,000,000`, and then
`isUnofficialRelease` is true for every title, whatever the title and the artist name. -/
theorem isMainstreamArtist_thresholds (lookup : ArtistLookup) (artist : Str)
    (artistInfo : ArtistInfo) (L P : Int)
    (hlookup : lookup artist = Fetched.ok (some artistInfo))
    (hL : statCount artistInfo.listeners = some L)
    (hP : statCount artistInfo.playcount = some P) :
    (isMainstreamArtist lookup artist = .ok true ↔ (L ≥ 1000000 ∨ P ≥ 10000000)) ∧
      ((L ≥ 1000000 ∨ P ≥ 10000000) → ∀ (lc : Str → Str) (title : Str),
        isUnofficialRelease lc lookup artist title = true) := by
  have hval : isMainstreamArtist lookup artist =
      .ok (decide (L ≥ 1000000) || decide (P ≥ 10000000)) := by
    unfold isMainstreamArtist getArtistInfo
    rw [hlookup]
    simp only [statAtLeast_eq _ _ L hL, statAtLeast_eq _ _ P hP]
  have hiff : isMainstreamArtist lookup artist = .ok true ↔ (L ≥ 1000000 ∨ P ≥ 10000000) := by
    rw [hval]
    constructor
    · intro h
      have hb : (decide (L ≥ 1000000) || decide (P ≥ 10000000)) = true := by
        injection h
      simpa using hb
    · intro h
      have hb : (decide (L ≥ 1000000) || decide (P ≥ 10000000)) = true := by
        simpa using h
      rw [hb]
  refine ⟨hiff, ?_⟩
  intro h lc title
  rw [isUnofficialRelease_of_ok lc lookup artist title true (hiff.mpr h)]
  rfl

theorem isMainstreamArtist_thresholds_witness :
    (isMainstreamArtist (statsLookup "1000000" "0") (js "Artist") = .ok true ↔
        ((1000000 : Int) ≥ 1000000 ∨ (0 : Int) ≥ 10000000)) ∧
      isUnofficialRelease asciiLower (statsLookup "1000000" "0") (js "Artist") (js "Song")
        = true :=
  ⟨(isMainstreamArtist_thresholds (statsLookup "1000000" "0") (js "Artist")
      { listeners := some (js "1000000"), playcount := some (js "0") } 1000000 0 rfl
      (by decide) (by decide)).1,
    (isMainstreamArtist_thresholds (statsLookup "1000000" "0") (js "Artist")
      { listeners := some (js "1000000"), playcount := some (js "0") } 1000000 0 rfl
      (by decide) (by decide)).2 (Or.inl (by decide)) asciiLower (js "Song")⟩

/-! ## Scoring scenarios -/

theorem listenerPoints_values (n : Int) :
    (n < 10000 → listenerPoints n = 30) ∧ (10000 ≤ n → n < 50000 → listenerPoints n = 20) ∧
      (50000 ≤ n → n < 100000 → listenerPoints n = 10) ∧
      (100000 ≤ n → n < 500000 → listenerPoints n = 5) ∧ (500000 ≤ n → listenerPoints n = 0) := by
  unfold listenerPoints
  refine ⟨?_, ?_, ?_, ?_, ?_⟩ <;> intros <;> split_ifs <;> first | rfl | omega

theorem detectIndependentLabel_values (track : Track) :
    (listenerCount track < 10000 → detectIndependentLabel track = 15) ∧
      (100000 ≤ listenerCount track → detectIndependentLabel track = 0) ∧
      0 ≤ detectIndependentLabel track ∧ detectIndependentLabel track ≤ 15 ∧
      (listenerCount track < 100000 → 5 ≤ detectIndependentLabel track) := by
  unfold detectIndependentLabel
  simp only
  refine ⟨?_, ?_, ?_, ?_, ?_⟩ <;> intros <;> split_ifs <;> omega

theorem analyzeEngagement_range (track : Track) :
    0 ≤ analyzeEngagement track ∧ analyzeEngagement track ≤ 10 := by
  obtain ⟨a, b, he, ha, hb, _, _⟩ := analyzeEngagement_eq track
  rcases ha with ha | ha <;> rcases hb with hb | hb <;> rw [he, ha, hb] <;> omega

theorem analyzeGenre_range (lc : Str → Str) (genre : Option Str) :
    analyzeGenre lc genre = 25 ∨ analyzeGenre lc genre = 15 ∨ analyzeGenre lc genre = -10 ∨
      analyzeGenre lc genre = 0 := by
  unfold analyzeGenre
  cases genre with
  | none => simp
  | some g =>
    simp only
    split_ifs <;> simp

theorem analyzeGenre_underground (lc : Str → Str) (g u : Str) (hg : g ≠ [])
    (hu : u ∈ undergroundGenres) (hin : u <:+: lc g) : analyzeGenre lc (some g) = 25 := by
  unfold analyzeGenre
  have hne : g.isEmpty = false := by
    cases g with
    | nil => exact absurd rfl hg
    | cons _ _ => rfl
  have h : undergroundGenres.any (fun undergroundGenre => includes (lc g) undergroundGenre)
      = true := (any_includes_iff undergroundGenres (lc g)).mpr ⟨u, hu, hin⟩
  simp only [hne, h, if_true, Bool.false_eq_true, if_false]

theorem analyzeEngagement_full (track : Track) (d url : Str)
    (hd : track.description = some d) (hlen : d.length > 100)
    (ha : track.artwork = some url) (hurl : url ≠ []) (hp : ¬ js "picsum" <:+: url) :
    analyzeEngagement track = 10 := by
  obtain ⟨a, b, he, ha1, hb1, hia, hib⟩ := analyzeEngagement_eq track
  have ha2 : a = 1 := hia.mpr ⟨d, hd, hlen⟩
  have hb2 : b = 1 := hib.mpr ⟨url, ha, hurl, hp⟩
  rw [he, ha2, hb2]
  rfl

/-- C24. For every track with fewer than 10,000 listeners, a genre containing a term of the
underground list, a description longer than 100 code units and an artwork URL without
`picsum`, and for every discovery draw: `listenerPoints = 30`, `genrePoints = 25`,
`indiePoints = 15`, `engagementPoints = 10`, and the score lies in `[80, 100]`. -/
theorem calculateUndergroundScore_underground_scenario (lc : Str → Str) (discoveryDays : Nat)
    (track : Track) (g u d url : Str)
    (hlisteners : listenerCount track < 10000)
    (hgenre : track.genre = some g) (hg : g ≠ []) (hu : u ∈ undergroundGenres)
    (hin : u <:+: lc g)
    (hd : track.description = some d) (hlen : d.length > 100)
    (ha : track.artwork = some url) (hurl : url ≠ []) (hp : ¬ js "picsum" <:+: url) :
    (scoreBreakdownOf lc discoveryDays track).listenerPoints = 30 ∧
      (scoreBreakdownOf lc discoveryDays track).genrePoints = 25 ∧
      (scoreBreakdownOf lc discoveryDays track).indiePoints = 15 ∧
      (scoreBreakdownOf lc discoveryDays track).engagementPoints = 10 ∧
      (calculateUndergroundScore lc discoveryDays track).2.scoreBreakdown =
        some (scoreBreakdownOf lc discoveryDays track) ∧
      80 ≤ (calculateUndergroundScore lc discoveryDays track).1 ∧
      (calculateUndergroundScore lc discoveryDays track).1 ≤ 100 := by
  have h1 : listenerPoints (listenerCount track) = 30 :=
    (listenerPoints_values (listenerCount track)).1 hlisteners
  have h2 : analyzeGenre lc track.genre = 25 := by
    rw [hgenre]
    exact analyzeGenre_underground lc g u hg hu hin
  have h3 : detectIndependentLabel track = 15 := (detectIndependentLabel_values track).1 hlisteners
  have h4 : analyzeEngagement track = 10 := analyzeEngagement_full track d url hd hlen ha hurl hp
  have h5 := calculateDiscoveryBonus_range discoveryDays
  refine ⟨h1, h2, h3, h4, rfl, ?_, ?_⟩
  · rw [calculateUndergroundScore_fst, h1, h2, h3, h4]
    omega
  · rw [calculateUndergroundScore_fst, h1, h2, h3, h4]
    omega

theorem calculateUndergroundScore_underground_scenario_witness :
    (scoreBreakdownOf asciiLower 200 scenarioTrack).listenerPoints = 30 ∧
      (scoreBreakdownOf asciiLower 200 scenarioTrack).genrePoints = 25 ∧
      (scoreBreakdownOf asciiLower 200 scenarioTrack).indiePoints = 15 ∧
      (scoreBreakdownOf asciiLower 200 scenarioTrack).engagementPoints = 10 ∧
      (calculateUndergroundScore asciiLower 200 scenarioTrack).2.scoreBreakdown =
        some (scoreBreakdownOf asciiLower 200 scenarioTrack) ∧
      80 ≤ (calculateUndergroundScore asciiLower 200 scenarioTrack).1 ∧
      (calculateUndergroundScore asciiLower 200 scenarioTrack).1 ≤ 100 :=
  calculateUndergroundScore_underground_scenario asciiLower 200 scenarioTrack (js "idm")
    (js "idm") (List.replicate 150 120) (js "real.jpg") (by decide) rfl (by decide)
    (by decide) ⟨[], [], by decide⟩ rfl (by simp) rfl (by decide)
    (by rw [← includes_iff]; decide)

/-- C25. For every track with at least 500,000 listeners and the genre "pop":
`listenerPoints = 0`, `genrePoints = -10`, `indiePoints = 0`, the score is at most
`max(0, discoveryPoints + engagementPoints)`, and it is 0 when both are 0. -/
theorem calculateUndergroundScore_mainstream_scenario (lc : Str → Str) (discoveryDays : Nat)
    (track : Track) (hlc : lc (js "pop") = js "pop")
    (hlisteners : 500000 ≤ listenerCount track) (hgenre : track.genre = some (js "pop")) :
    (scoreBreakdownOf lc discoveryDays track).listenerPoints = 0 ∧
      (scoreBreakdownOf lc discoveryDays track).genrePoints = -10 ∧
      (scoreBreakdownOf lc discoveryDays track).indiePoints = 0 ∧
      (calculateUndergroundScore lc discoveryDays track).1 ≤
        max 0 ((scoreBreakdownOf lc discoveryDays track).discoveryPoints +
          (scoreBreakdownOf lc discoveryDays track).engagementPoints) ∧
      ((scoreBreakdownOf lc discoveryDays track).discoveryPoints = 0 →
        (scoreBreakdownOf lc discoveryDays track).engagementPoints = 0 →
        (calculateUndergroundScore lc discoveryDays track).1 = 0) := by
  have h1 : listenerPoints (listenerCount track) = 0 :=
    (listenerPoints_values (listenerCount track)).2.2.2.2 hlisteners
  have h2 : analyzeGenre lc track.genre = -10 := by
    rw [hgenre]
    have hpop : analyzeGenre (fun _ => js "pop") (some (js "pop")) = -10 := by decide
    unfold analyzeGenre at hpop ⊢
    simp only [hlc]
    exact hpop
  have h3 : detectIndependentLabel track = 0 :=
    (detectIndependentLabel_values track).2.1 (by omega)
  have h4 := analyzeEngagement_range track
  have h5 := calculateDiscoveryBonus_range discoveryDays
  refine ⟨h1, h2, h3, ?_, ?_⟩
  · rw [calculateUndergroundScore_fst, h1, h2, h3]
    simp only [scoreBreakdownOf]
    omega
  · intro hd he
    simp only [scoreBreakdownOf] at hd he
    rw [calculateUndergroundScore_fst, h1, h2, h3, hd, he]
    rfl

theorem calculateUndergroundScore_mainstream_scenario_witness :
    (scoreBreakdownOf asciiLower 200 (sampleTrack "Artist" "Song" "pop" "2000000")).listenerPoints
        = 0 ∧
      (scoreBreakdownOf asciiLower 200 (sampleTrack "Artist" "Song" "pop" "2000000")).genrePoints
        = -10 ∧
      (scoreBreakdownOf asciiLower 200 (sampleTrack "Artist" "Song" "pop" "2000000")).indiePoints
        = 0 ∧
      (calculateUndergroundScore asciiLower 200 (sampleTrack "Artist" "Song" "pop" "2000000")).1
        = 0 :=
  ⟨(calculateUndergroundScore_mainstream_scenario asciiLower 200
      (sampleTrack "Artist" "Song" "pop" "2000000") (by decide) (by decide) rfl).1,
    (calculateUndergroundScore_mainstream_scenario asciiLower 200
      (sampleTrack "Artist" "Song" "pop" "2000000") (by decide) (by decide) rfl).2.1,
    (calculateUndergroundScore_mainstream_scenario asciiLower 200
      (sampleTrack "Artist" "Song" "pop" "2000000") (by decide) (by decide) rfl).2.2.1,
    (calculateUndergroundScore_mainstream_scenario asciiLower 200
      (sampleTrack "Artist" "Song" "pop" "2000000") (by decide) (by decide) rfl).2.2.2.2
      (by decide) (by decide)⟩

/-! ## Range of the unclamped score -/

theorem listenerPoints_range (n : Int) :
    0 ≤ listenerPoints n ∧ listenerPoints n ≤ 30 ∧ (n < 100000 → 10 ≤ listenerPoints n) ∧
      (n < 500000 → 5 ≤ listenerPoints n) := by
  unfold listenerPoints
  refine ⟨?_, ?_, ?_, ?_⟩ <;> intros <;> split_ifs <;> omega

theorem calculateDiscoveryBonus_values (discoveryDays : Nat) :
    calculateDiscoveryBonus discoveryDays = 0 ∨ calculateDiscoveryBonus discoveryDays = 10 ∨
      calculateDiscoveryBonus discoveryDays = 15 ∨ calculateDiscoveryBonus discoveryDays = 20 := by
  unfold calculateDiscoveryBonus
  split_ifs <;> simp

theorem analyzeEngagement_values (track : Track) :
    analyzeEngagement track = 0 ∨ analyzeEngagement track = 5 ∨ analyzeEngagement track = 10 := by
  obtain ⟨a, b, he, ha, hb, _, _⟩ := analyzeEngagement_eq track
  rcases ha with ha | ha <;> rcases hb with hb | hb <;> rw [he, ha, hb] <;> simp

theorem analyzeGenre_mainstream (lc : Str → Str) (genre : Option Str)
    (h : analyzeGenre lc genre = -10) :
    ∃ g, genre = some g ∧ ∃ m ∈ mainstreamGenres, m <:+: lc g := by
  unfold analyzeGenre at h
  cases genre with
  | none => simp at h
  | some g =>
    refine ⟨g, rfl, ?_⟩
    simp only at h
    split_ifs at h with h1 h2 h3 h4
    exact (any_includes_iff mainstreamGenres (lc g)).mp h4

theorem unclampedScore_eq (lc : Str → Str) (discoveryDays : Nat) (track : Track) :
    unclampedScore lc discoveryDays track =
      listenerPoints (listenerCount track) + analyzeGenre lc track.genre +
        calculateDiscoveryBonus discoveryDays + detectIndependentLabel track +
        analyzeEngagement track := rfl

/-- C29, as stated, fails.  A track with 200,000 listeners and the genre "pop", without
description and artwork and with a discovery draw of 200 days, has the sub-scores
5, -10, 0, 0, 0: the sum is -5, below 0, with fewer than 500,000 listeners. -/
theorem unclampedScore_negative_needs_500000_fails :
    ¬ (∀ (discoveryDays : Nat) (track : Track),
        unclampedScore asciiLower discoveryDays track < 0 → 500000 ≤ listenerCount track) := by
  intro h
  have h1 := h 200 (sampleTrack "Artist" "Song" "pop" "200000") (by decide)
  revert h1
  decide

/-- C29, amended. For every track and every discovery draw the sum of the five sub-scores
lies between -10 and 100, so the clamp at 100 never changes a score and the score is
`max(0, sum)`.  A negative sum is -10 or -5; it requires at least 100,000 listeners, a
genre of the mainstream list, no discovery points and at most 5 engagement points (none
below 500,000 listeners); the sum -10 requires at least 500,000 listeners. -/
theorem unclampedScore_range (lc : Str → Str) (discoveryDays : Nat) (track : Track) :
    -10 ≤ unclampedScore lc discoveryDays track ∧
      unclampedScore lc discoveryDays track ≤ 100 ∧
      (calculateUndergroundScore lc discoveryDays track).1 =
        max 0 (unclampedScore lc discoveryDays track) ∧
      (unclampedScore lc discoveryDays track < 0 →
        (unclampedScore lc discoveryDays track = -10 ∨
          unclampedScore lc discoveryDays track = -5) ∧
        100000 ≤ listenerCount track ∧
        (∃ g, track.genre = some g ∧ ∃ m ∈ mainstreamGenres, m <:+: lc g) ∧
        (scoreBreakdownOf lc discoveryDays track).genrePoints = -10 ∧
        (scoreBreakdownOf lc discoveryDays track).discoveryPoints = 0 ∧
        (scoreBreakdownOf lc discoveryDays track).engagementPoints ≤ 5 ∧
        (listenerCount track < 500000 →
          (scoreBreakdownOf lc discoveryDays track).engagementPoints = 0)) ∧
      (unclampedScore lc discoveryDays track = -10 → 500000 ≤ listenerCount track) := by
  have hl := listenerPoints_range (listenerCount track)
  have hlv := listenerPoints_values (listenerCount track)
  have hg := analyzeGenre_range lc track.genre
  have hd := calculateDiscoveryBonus_values discoveryDays
  have hi := detectIndependentLabel_values track
  have he := analyzeEngagement_values track
  have hs := unclampedScore_eq lc discoveryDays track
  refine ⟨by omega, by omega, ?_, ?_, ?_⟩
  · have hf := calculateUndergroundScore_fst lc discoveryDays track
    rw [hf, ← hs]
    omega
  · intro hneg
    have hgen : analyzeGenre lc track.genre = -10 := by omega
    have hcount : 100000 ≤ listenerCount track := by
      by_contra hc
      have := hl.2.2.1 (by omega)
      omega
    have h0 := hi.2.1 hcount
    refine ⟨?_, hcount, analyzeGenre_mainstream lc track.genre hgen, hgen, ?_, ?_, ?_⟩
    · rcases Int.lt_or_le (listenerCount track) 500000 with hlt | hge
      · have := hlv.2.2.2.1 hcount hlt
        omega
      · have := hlv.2.2.2.2 hge
        omega
    · show calculateDiscoveryBonus discoveryDays = 0
      omega
    · show analyzeEngagement track ≤ 5
      omega
    · intro hlt
      show analyzeEngagement track = 0
      have := hlv.2.2.2.1 hcount hlt
      omega
  · intro h10
    by_contra hc
    have := hl.2.2.2 (by omega)
    omega

theorem unclampedScore_range_witness :
    unclampedScore asciiLower 200 (sampleTrack "Artist" "Song" "pop" "200000") = -5 ∧
      (100000 : Int) ≤ listenerCount (sampleTrack "Artist" "Song" "pop" "200000") ∧
      (calculateUndergroundScore asciiLower 200
        (sampleTrack "Artist" "Song" "pop" "200000")).1 = 0 :=
  ⟨by decide,
    ((unclampedScore_range asciiLower 200
      (sampleTrack "Artist" "Song" "pop" "200000")).2.2.2.1 (by decide)).2.1,
    by decide⟩

/-! ## The similarity threshold as an edit-distance bound -/

theorem levRec_eq_zero (s t : Str) (h : levRec s t = 0) : s = t := by
  induction s generalizing t with
  | nil =>
    rw [levRec_nil_left] at h
    exact (List.length_eq_zero.mp h).symm
  | cons a s ih =>
    cases t with
    | nil =>
      rw [levRec_nil_right] at h
      simp at h
    | cons b t =>
      rw [levRec_cons_cons, cell] at h
      by_cases hab : a = b
      · rw [if_pos hab] at h
        rw [hab, ih t h]
      · rw [if_neg hab] at h
        have m1 := Nat.min_le_left (levRec s t + 1) (min (levRec (a :: s) t + 1) (levRec s (b :: t) + 1))
        have hm : min (levRec s t + 1) (min (levRec (a :: s) t + 1) (levRec s (b :: t) + 1)) =
            levRec s t + 1 ∨
            min (levRec s t + 1) (min (levRec (a :: s) t + 1) (levRec s (b :: t) + 1)) =
            min (levRec (a :: s) t + 1) (levRec s (b :: t) + 1) := by
          rcases Nat.le_total (levRec s t + 1)
            (min (levRec (a :: s) t + 1) (levRec s (b :: t) + 1)) with h' | h'
          · exact Or.inl (Nat.min_eq_left h')
          · exact Or.inr (Nat.min_eq_right h')
        have hm2 : min (levRec (a :: s) t + 1) (levRec s (b :: t) + 1) = levRec (a :: s) t + 1 ∨
            min (levRec (a :: s) t + 1) (levRec s (b :: t) + 1) = levRec s (b :: t) + 1 := by
          rcases Nat.le_total (levRec (a :: s) t + 1) (levRec s (b :: t) + 1) with h' | h'
          · exact Or.inl (Nat.min_eq_left h')
          · exact Or.inr (Nat.min_eq_right h')
        omega

theorem levenshteinDistance_eq_zero (a b : Str) (h : levenshteinDistance a b = 0) : a = b := by
  rw [levenshteinDistance_eq_levRec] at h
  have h2 := levRec_eq_zero _ _ h
  have h3 := congrArg List.reverse h2
  simp only [List.reverse_reverse] at h3
  exact h3.symm

theorem isNearDuplicateTitle_iff (a b : Str) :
    IsNearDuplicateTitle a b ↔
      (max a.length b.length = 0 ∨ 10 * levenshteinDistance a b < max a.length b.length) := by
  have key : ∀ longer shorter : Str,
      ((if longer.length = 0 then (1 : ℚ)
        else ((longer.length : ℚ) - (levenshteinDistance longer shorter : ℚ)) /
          (longer.length : ℚ)) > 9 / 10) ↔
      (longer.length = 0 ∨ 10 * levenshteinDistance longer shorter < longer.length) := by
    intro longer shorter
    by_cases h0 : longer.length = 0
    · simp only [h0, true_or, if_true, iff_true]
      norm_num
    · have hpos : (0 : ℚ) < (longer.length : ℚ) := by
        exact_mod_cast Nat.pos_of_ne_zero h0
      simp only [h0, false_or, if_false, gt_iff_lt]
      rw [lt_div_iff₀ hpos]
      constructor
      · intro h
        have h2 : ((10 * levenshteinDistance longer shorter : ℕ) : ℚ) < (longer.length : ℚ) := by
          push_cast
          linarith
        exact_mod_cast h2
      · intro h
        have h2 : ((10 * levenshteinDistance longer shorter : ℕ) : ℚ) < (longer.length : ℚ) := by
          exact_mod_cast h
        push_cast at h2
        linarith
  unfold IsNearDuplicateTitle calculateStringSimilarity
  by_cases hlt : a.length > b.length
  · simp only [hlt, if_true]
    rw [key a b, Nat.max_eq_left (by omega)]
  · simp only [hlt, if_false]
    rw [key b a, Nat.max_eq_right (by omega), levenshteinDistance_comm b a]

/-- C30. For titles `a` and `b` that are not both empty, with `d = levenshteinDistance(a, b)`
and `n = max(|a|, |b|)`: the similarity is above `0.9`, and `findSimilarTrack` returns the
key of an entry of the same artist with title `b`, exactly when `10 * d < n`.  Hence two
different titles of at most 10 code units are never near-duplicates, and titles at distance
1 are near-duplicates exactly when the longer one has at least 11 code units. -/
theorem findSimilarTrack_threshold (a b : Str) (hne : ¬ (a = [] ∧ b = [])) :
    (calculateStringSimilarity a b > 9 / 10 ↔
        10 * levenshteinDistance a b < max a.length b.length) ∧
      (∀ (artist key : Str) (track : Track),
        findSimilarTrack artist a [(key, { artist := artist, title := b, originalTrack := track })]
            = some key ↔
          10 * levenshteinDistance a b < max a.length b.length) ∧
      (a ≠ b → a.length ≤ 10 → b.length ≤ 10 → ¬ calculateStringSimilarity a b > 9 / 10) ∧
      (levenshteinDistance a b = 1 →
        (calculateStringSimilarity a b > 9 / 10 ↔ 11 ≤ max a.length b.length)) := by
  have hmax : max a.length b.length ≠ 0 := by
    intro h
    apply hne
    have h1 : a.length = 0 := by omega
    have h2 : b.length = 0 := by omega
    exact ⟨List.length_eq_zero.mp h1, List.length_eq_zero.mp h2⟩
  have hiff : calculateStringSimilarity a b > 9 / 10 ↔
      10 * levenshteinDistance a b < max a.length b.length := by
    have h := isNearDuplicateTitle_iff a b
    unfold IsNearDuplicateTitle at h
    rw [h]
    constructor
    · rintro (h0 | h1)
      · exact absurd h0 hmax
      · exact h1
    · exact Or.inr
  refine ⟨hiff, ?_, ?_, ?_⟩
  · intro artist key track
    rw [← hiff]
    simp only [findSimilarTrack, ne_eq, not_true_eq_false, if_false]
    by_cases hs : IsNearDuplicateTitle a b
    · have hs2 : calculateStringSimilarity a b > 9 / 10 := hs
      simp [hs, hs2]
    · have hs2 : ¬ calculateStringSimilarity a b > 9 / 10 := hs
      simp [hs, hs2]
  · intro hab ha hb
    rw [hiff]
    have hd : levenshteinDistance a b ≠ 0 := fun h => hab (levenshteinDistance_eq_zero a b h)
    omega
  · intro hd
    rw [hiff, hd]
    omega

theorem findSimilarTrack_threshold_witness :
    (calculateStringSimilarity (js "abcdefghijk") (js "abcdefghijx") > 9 / 10 ↔
        11 ≤ max (js "abcdefghijk").length (js "abcdefghijx").length) ∧
      ¬ calculateStringSimilarity (js "abcdefghij") (js "abcdefghix") > 9 / 10 :=
  ⟨(findSimilarTrack_threshold (js "abcdefghijk") (js "abcdefghijx") (by decide)).2.2.2
      (by decide),
    (findSimilarTrack_threshold (js "abcdefghij") (js "abcdefghix") (by decide)).2.2.1
      (by decide) (by decide) (by decide)⟩

/-! ## Genre enrichment -/

theorem mem_queryRule (queryLower word tag : Str) (tags : List Str) :
    tag ∈ queryRule queryLower word tags ↔ (word <:+: queryLower ∧ tag ∈ tags) := by
  unfold queryRule
  by_cases h : includes queryLower word = true
  · rw [if_pos h]
    exact ⟨fun ht => ⟨(includes_iff _ _).mp h, ht⟩, fun ht => ht.2⟩
  · rw [if_neg h]
    constructor
    · intro ht
      exact absurd ht (List.not_mem_nil _)
    · intro ht
      exact absurd ((includes_iff _ _).mpr ht.1) h

theorem smartRule_nil (queryLower nameWord queryWord : Str) (tags : List Str)
    (hname : includes [] nameWord = false) :
    smartRule [] [] queryLower nameWord queryWord tags = queryRule queryLower queryWord tags := by
  unfold smartRule queryRule
  rw [hname]
  simp only [Bool.or_self, Bool.false_or]

/-- C27, as stated, fails.  For the query "underground" the scan of `inferGenresFromQuery`
yields no tag, while `getSmartGenreMapping` with empty artist and track names yields the
tag "underground". -/
theorem inferGenresFromQuery_differs :
    ¬ (∀ (q tag : Str), tag ∈ inferGenresFromQuery asciiLower q ↔
        tag ∈ getSmartGenreMapping asciiLower [] [] q) := by
  intro h
  have h1 := (h (js "underground") (js "underground")).mpr (by decide)
  revert h1
  decide

/-- C27, amended. The scan of `inferGenresFromQuery` uses its own table (trap,
experimental, jazz, alternative, electronic, lo-fi, indie, hip-hop, ambient).  It yields
the same set of tags as `getSmartGenreMapping` with empty artist and track names for every
query whose lower-casing contains none of the words that only the other table has
(underground, avant-garde, cloud, post-rock, math rock, free jazz) and contains `hip-hop`
only together with `trap` or `lo-fi`. -/
theorem inferGenresFromQuery_agrees (lc : Str → Str) (q : Str) (hnil : lc [] = [])
    (h1 : ¬ js "underground" <:+: lc q) (h2 : ¬ js "avant-garde" <:+: lc q)
    (h3 : ¬ js "cloud" <:+: lc q) (h4 : ¬ js "post-rock" <:+: lc q)
    (h5 : ¬ js "math rock" <:+: lc q) (h6 : ¬ js "free jazz" <:+: lc q)
    (h7 : js "hip-hop" <:+: lc q → js "trap" <:+: lc q ∨ js "lo-fi" <:+: lc q) :
    ∀ tag : Str, tag ∈ inferGenresFromQuery lc q ↔ tag ∈ getSmartGenreMapping lc [] [] q := by
  intro tag
  unfold inferGenresFromQuery getSmartGenreMapping
  simp (disch := decide) only [hnil, smartRule_nil]
  simp only [List.mem_append, mem_queryRule, List.mem_cons, List.mem_singleton,
    List.not_mem_nil, or_false, h1, h2, h3, h4, h5, h6, false_and, false_or, or_false]
  have hH : js "hip-hop" <:+: lc q ∧ tag = js "hip-hop" →
      js "trap" <:+: lc q ∧ (tag = js "trap" ∨ tag = js "hip-hop") ∨
        js "lo-fi" <:+: lc q ∧ (tag = js "lo-fi" ∨ tag = js "hip-hop") := by
    rintro ⟨hq, ht⟩
    rcases h7 hq with h | h
    · exact Or.inl ⟨h, Or.inr ht⟩
    · exact Or.inr ⟨h, Or.inr ht⟩
  clear h1 h2 h3 h4 h5 h6 h7 hnil
  generalize (js "hip-hop" <:+: lc q ∧ tag = js "hip-hop") = H at hH ⊢
  generalize (js "trap" <:+: lc q ∧ (tag = js "trap" ∨ tag = js "hip-hop")) = T at hH ⊢
  generalize (js "lo-fi" <:+: lc q ∧ (tag = js "lo-fi" ∨ tag = js "hip-hop")) = L at hH ⊢
  generalize (js "experimental" <:+: lc q ∧ tag = js "experimental") = E
  generalize (js "jazz" <:+: lc q ∧ tag = js "jazz") = J
  generalize (js "alternative" <:+: lc q ∧ (tag = js "alternative" ∨ tag = js "rock")) = A
  generalize (js "electronic" <:+: lc q ∧ tag = js "electronic") = El
  generalize (js "indie" <:+: lc q ∧ tag = js "indie") = I
  generalize (js "ambient" <:+: lc q ∧ (tag = js "ambient" ∨ tag = js "electronic")) = Am
  tauto

theorem inferGenresFromQuery_agrees_witness :
    (js "hip-hop" ∈ inferGenresFromQuery asciiLower (js "Lo-Fi Jazz") ↔
      js "hip-hop" ∈ getSmartGenreMapping asciiLower [] [] (js "Lo-Fi Jazz")) ∧
      js "hip-hop" ∈ inferGenresFromQuery asciiLower (js "Lo-Fi Jazz") :=
  ⟨inferGenresFromQuery_agrees asciiLower (js "Lo-Fi Jazz") rfl
      (by rw [← includes_iff]; decide) (by rw [← includes_iff]; decide)
      (by rw [← includes_iff]; decide) (by rw [← includes_iff]; decide)
      (by rw [← includes_iff]; decide) (by rw [← includes_iff]; decide)
      (by rw [← includes_iff, ← includes_iff, ← includes_iff]; decide) (js "hip-hop"),
    by decide⟩

theorem mem_setAdd (genres : List Str) (x y : Str) :
    y ∈ setAdd genres x ↔ y ∈ genres ∨ y = x := by
  unfold setAdd
  by_cases h : genres.contains x = true
  · rw [if_pos h]
    have hx : x ∈ genres := by simpa using h
    constructor
    · exact fun hy => Or.inl hy
    · rintro (hy | rfl)
      · exact hy
      · exact hx
  · rw [if_neg h]
    simp

theorem setAdd_nodup (genres : List Str) (x : Str) (h : genres.Nodup) :
    (setAdd genres x).Nodup := by
  unfold setAdd
  by_cases hc : genres.contains x = true
  · rw [if_pos hc]
    exact h
  · rw [if_neg hc]
    have hx : x ∉ genres := by simpa using hc
    rw [List.nodup_append]
    refine ⟨h, List.nodup_singleton x, ?_⟩
    intro a ha hb
    rw [List.mem_singleton] at hb
    exact hx (hb ▸ ha)

theorem setAddAll_nodup (xs : List Str) :
    ∀ genres : List Str, genres.Nodup → (setAddAll genres xs).Nodup := by
  induction xs with
  | nil => exact fun _ h => h
  | cons x rest ih => exact fun genres h => ih (setAdd genres x) (setAdd_nodup genres x h)

theorem finishGenres_spec (lc : Str → Str) (artistName trackName searchQuery : Str)
    (genres : List Str) (h : genres.Nodup) :
    js "underground" ∈ finishGenres lc artistName trackName searchQuery genres ∧
      (finishGenres lc artistName trackName searchQuery genres).Nodup := by
  unfold finishGenres
  refine ⟨(mem_setAdd _ _ _).mpr (Or.inr rfl), setAdd_nodup _ _ ?_⟩
  have h1 := setAddAll_nodup (getSmartGenreMapping lc artistName trackName searchQuery) genres h
  by_cases hl : (setAddAll genres
      (getSmartGenreMapping lc artistName trackName searchQuery)).length = 0
  · simp only [hl, if_true]
    exact setAddAll_nodup _ _ h1
  · simp only [hl, if_false]
    exact h1

theorem enhancedGenreSet_spec (lc : Str → Str) (artistLookup : ArtistLookup)
    (trackLookup : TrackLookup) (artistName trackName searchQuery : Str) (tags : List Str)
    (h : enhancedGenreSet lc artistLookup trackLookup artistName trackName searchQuery =
      some tags) : js "underground" ∈ tags ∧ tags.Nodup := by
  unfold enhancedGenreSet at h
  have h0 : ∀ xs : List Str, (setAddAll [] xs).Nodup :=
    fun xs => setAddAll_nodup xs [] List.nodup_nil
  cases ht : trackLookup artistName trackName with
  | threw => simp [ht] at h
  | notOk =>
    simp only [ht, Option.some.injEq] at h
    rw [← h]
    exact finishGenres_spec _ _ _ _ _ (h0 _)
  | ok body =>
    simp only [ht, Option.some.injEq] at h
    rw [← h]
    exact finishGenres_spec _ _ _ _ _ (setAddAll_nodup _ _ (h0 _))

theorem splitComma_ne_nil (s : Str) : splitComma s ≠ [] := by
  induction s with
  | nil => simp [splitComma]
  | cons c rest ih =>
    unfold splitComma
    split_ifs
    · simp
    · cases h : splitComma rest with
      | nil => exact absurd h ih
      | cons piece pieces => simp

theorem splitComma_cons_ne (c : Nat) (rest piece : Str) (pieces : List Str) (hc : c ≠ 44)
    (h : splitComma rest = piece :: pieces) :
    splitComma (c :: rest) = (c :: piece) :: pieces := by
  rw [splitComma, if_neg hc, h]

theorem splitComma_comma_cons (rest : Str) : splitComma (44 :: rest) = [] :: splitComma rest := by
  rw [splitComma, if_pos rfl]

theorem splitComma_append_comma (a b : Str) :
    splitComma (a ++ 44 :: b) = splitComma a ++ splitComma b := by
  induction a with
  | nil => exact splitComma_comma_cons b
  | cons c rest ih =>
    by_cases hc : c = 44
    · subst hc
      rw [List.cons_append, splitComma_comma_cons, splitComma_comma_cons, ih]
      rfl
    · cases h : splitComma rest with
      | nil => exact absurd h (splitComma_ne_nil rest)
      | cons piece pieces =>
        rw [List.cons_append, splitComma_cons_ne c rest piece pieces hc h,
          splitComma_cons_ne c (rest ++ 44 :: b) piece (pieces ++ splitComma b) hc
            (by rw [ih, h]; rfl)]
        rfl

theorem splitComma_of_no_comma (s : Str) (h : 44 ∉ s) : splitComma s = [s] := by
  induction s with
  | nil => rfl
  | cons c rest ih =>
    have hc : c ≠ 44 := fun hc => h (by simp [hc])
    have hr : 44 ∉ rest := fun hr => h (List.mem_cons_of_mem _ hr)
    exact splitComma_cons_ne c rest rest [] hc (ih hr)

theorem trim_space_cons (s : Str) : trim (32 :: s) = trim s := by
  unfold trim
  rw [List.dropWhile_cons]
  have h : isStrWhiteSpace 32 = true := by decide
  rw [h]
  rfl

theorem genreTags_space_cons (s : Str) : genreTags (32 :: s) = genreTags s := by
  unfold genreTags
  cases h : splitComma s with
  | nil => exact absurd h (splitComma_ne_nil s)
  | cons piece pieces =>
    rw [splitComma_cons_ne 32 s piece pieces (by decide) h]
    simp only [List.map_cons, trim_space_cons]

theorem genreTags_of_plain (t : Str) (h : 44 ∉ t ∧ trim t = t) : genreTags t = [t] := by
  unfold genreTags
  rw [splitComma_of_no_comma t h.1, List.map_singleton, h.2]

theorem genreTags_joinComma (tags : List Str) (hne : tags ≠ []) :
    genreTags (joinComma tags) = tags.flatMap genreTags := by
  induction tags with
  | nil => exact absurd rfl hne
  | cons x rest ih =>
    cases rest with
    | nil => simp [joinComma]
    | cons y more =>
      have h1 : joinComma (x :: y :: more) = x ++ 44 :: (32 :: joinComma (y :: more)) := by
        show x ++ js ", " ++ joinComma (y :: more) = _
        rw [List.append_assoc]
        rfl
      have h2 : genreTags (x ++ 44 :: (32 :: joinComma (y :: more))) =
          genreTags x ++ genreTags (32 :: joinComma (y :: more)) := by
        unfold genreTags
        rw [splitComma_append_comma, List.map_append]
      rw [h1, h2, genreTags_space_cons, ih (List.cons_ne_nil _ _)]
      simp only [List.flatMap_cons]

theorem flatMap_genreTags_of_plain (tags : List Str)
    (h : ∀ t ∈ tags, 44 ∉ t ∧ trim t = t) : tags.flatMap genreTags = tags := by
  induction tags with
  | nil => rfl
  | cons x rest ih =>
    rw [List.flatMap_cons, genreTags_of_plain x (h x (List.mem_cons_self _ _)),
      ih (fun t ht => h t (List.mem_cons_of_mem _ ht))]
    rfl

theorem mem_genreTags_joinComma (tags : List Str) (t : Str) (ht : t ∈ tags)
    (hplain : 44 ∉ t ∧ trim t = t) : t ∈ genreTags (joinComma tags) := by
  rw [genreTags_joinComma tags (List.ne_nil_of_mem ht), List.mem_flatMap]
  exact ⟨t, ht, by rw [genreTags_of_plain t hplain]; exact List.mem_singleton.mpr rfl⟩

theorem mem_setAddAll (xs : List Str) : ∀ (genres : List Str) (y : Str),
    y ∈ setAddAll genres xs ↔ y ∈ genres ∨ y ∈ xs := by
  induction xs with
  | nil => intro genres y; simp [setAddAll]
  | cons x rest ih =>
    intro genres y
    show y ∈ setAddAll (setAdd genres x) rest ↔ _
    rw [ih, mem_setAdd, List.mem_cons, or_assoc]

theorem mem_smartRule (artistLower trackLower queryLower nameWord queryWord tag : Str)
    (tags : List Str)
    (h : tag ∈ smartRule artistLower trackLower queryLower nameWord queryWord tags) :
    tag ∈ tags := by
  unfold smartRule at h
  split_ifs at h
  · exact h
  · exact absurd h (List.not_mem_nil _)

theorem plain_of_mem_getSmartGenreMapping (lc : Str → Str)
    (artistName trackName searchQuery tag : Str)
    (h : tag ∈ getSmartGenreMapping lc artistName trackName searchQuery) :
    44 ∉ tag ∧ trim tag = tag := by
  unfold getSmartGenreMapping at h
  simp only [List.mem_append] at h
  have hall : ∀ t ∈ [js "underground", js "indie", js "experimental", js "avant-garde",
      js "lo-fi", js "hip-hop", js "trap", js "cloud rap", js "ambient", js "electronic",
      js "post-rock", js "rock", js "math rock", js "alternative", js "free jazz", js "jazz"],
      44 ∉ t ∧ trim t = t := by decide
  apply hall
  rcases h with (((((((((((((h | h) | h) | h) | h) | h) | h) | h) | h) | h) | h) | h) | h) | h)
  all_goals
    have h2 := mem_smartRule _ _ _ _ _ _ _ h
    revert h2
    simp only [List.mem_cons, List.mem_singleton, List.not_mem_nil, or_false]
    intro h2
    rcases h2 with rfl | rfl <;> decide

theorem plain_of_mem_inferGenresFromQuery (lc : Str → Str) (searchQuery tag : Str)
    (h : tag ∈ inferGenresFromQuery lc searchQuery) : 44 ∉ tag ∧ trim tag = tag := by
  unfold inferGenresFromQuery at h
  simp only [List.mem_append, mem_queryRule, List.mem_cons, List.mem_singleton,
    List.not_mem_nil, or_false] at h
  have hall : ∀ t ∈ [js "trap", js "hip-hop", js "experimental", js "jazz",
      js "alternative", js "rock", js "electronic", js "lo-fi", js "indie", js "ambient"],
      44 ∉ t ∧ trim t = t := by decide
  apply hall
  rcases h with ((((((((h | h) | h) | h) | h) | h) | h) | h) | h)
  all_goals
    obtain ⟨_, h2⟩ := h
    rcases h2 with rfl | rfl <;> decide

theorem mem_finishGenres (lc : Str → Str) (artistName trackName searchQuery tag : Str)
    (genres : List Str) (h : tag ∈ finishGenres lc artistName trackName searchQuery genres) :
    tag ∈ genres ∨ tag ∈ getSmartGenreMapping lc artistName trackName searchQuery ∨
      tag ∈ inferGenresFromQuery lc searchQuery ∨ tag = js "underground" := by
  unfold finishGenres at h
  rw [mem_setAdd] at h
  rcases h with h | h
  · split_ifs at h
    · rw [mem_setAddAll, mem_setAddAll] at h
      rcases h with (h | h) | h
      · exact Or.inl h
      · exact Or.inr (Or.inl h)
      · exact Or.inr (Or.inr (Or.inl h))
    · rw [mem_setAddAll] at h
      rcases h with h | h
      · exact Or.inl h
      · exact Or.inr (Or.inl h)
  · exact Or.inr (Or.inr (Or.inr h))

theorem plain_of_mem_finishGenres (lc : Str → Str) (artistName trackName searchQuery : Str)
    (genres : List Str) (hg : ∀ t ∈ genres, 44 ∉ t ∧ trim t = t) :
    ∀ t ∈ finishGenres lc artistName trackName searchQuery genres, 44 ∉ t ∧ trim t = t := by
  intro t ht
  rcases mem_finishGenres lc artistName trackName searchQuery t genres ht with h | h | h | h
  · exact hg t h
  · exact plain_of_mem_getSmartGenreMapping lc artistName trackName searchQuery t h
  · exact plain_of_mem_inferGenresFromQuery lc searchQuery t h
  · rw [h]
    decide

theorem plain_of_mem_enhancedGenreSet (lc : Str → Str) (artistLookup : ArtistLookup)
    (trackLookup : TrackLookup) (artistName trackName searchQuery : Str) (tags : List Str)
    (hartist : ∀ artistInfo, getArtistInfo artistLookup artistName = some artistInfo →
      ∀ t ∈ artistInfo.tags.getD [], 44 ∉ lc t ∧ trim (lc t) = lc t)
    (htrack : ∀ body, trackLookup artistName trackName = .ok body →
      ∀ t ∈ body.getD [], 44 ∉ lc t ∧ trim (lc t) = lc t)
    (h : enhancedGenreSet lc artistLookup trackLookup artistName trackName searchQuery =
      some tags) : ∀ t ∈ tags, 44 ∉ t ∧ trim t = t := by
  unfold enhancedGenreSet at h
  have hA : ∀ t ∈ setAddAll [] (match getArtistInfo artistLookup artistName with
      | none => []
      | some artistInfo => (artistInfo.tags.getD []).map lc), 44 ∉ t ∧ trim t = t := by
    intro t ht
    rw [mem_setAddAll] at ht
    rcases ht with ht | ht
    · exact absurd ht (List.not_mem_nil _)
    · cases hi : getArtistInfo artistLookup artistName with
      | none =>
        rw [hi] at ht
        exact absurd ht (List.not_mem_nil _)
      | some artistInfo =>
        rw [hi] at ht
        obtain ⟨u, hu, rfl⟩ := List.mem_map.mp ht
        exact hartist artistInfo hi u hu
  cases ht : trackLookup artistName trackName with
  | threw => simp [ht] at h
  | notOk =>
    simp only [ht, Option.some.injEq] at h
    rw [← h]
    exact plain_of_mem_finishGenres _ _ _ _ _ hA
  | ok body =>
    simp only [ht, Option.some.injEq] at h
    rw [← h]
    refine plain_of_mem_finishGenres _ _ _ _ _ ?_
    intro t ht2
    rw [mem_setAddAll] at ht2
    rcases ht2 with ht2 | ht2
    · exact hA t ht2
    · obtain ⟨u, hu, rfl⟩ := List.mem_map.mp ht2
      exact htrack body ht u hu

/-- C23, as stated, fails twice.  When the artist lookup throws and the track lookup
returns the tag "idm", the result is "idm, underground", not "underground" alone.  When the
track lookup returns the tags "rock, pop" and "pop", the result is
"rock, pop, pop, underground", which holds the tag "pop" twice. -/
theorem getEnhancedGenres_as_stated_fails :
    ¬ (∀ (artistLookup : ArtistLookup) (trackLookup : TrackLookup)
        (artistName trackName searchQuery : Str),
        (artistLookup artistName = .threw ∨ trackLookup artistName trackName = .threw) →
          getEnhancedGenres asciiLower artistLookup trackLookup artistName trackName
            searchQuery = js "underground") ∧
      ¬ (∀ (artistLookup : ArtistLookup) (trackLookup : TrackLookup)
        (artistName trackName searchQuery : Str),
        (genreTags (getEnhancedGenres asciiLower artistLookup trackLookup artistName
          trackName searchQuery)).Nodup) := by
  constructor
  · intro h
    have h1 := h artistLookupThrows (trackLookupTags ["idm"]) (js "Aphex Twin") (js "Xtal")
      (js "music") (Or.inl rfl)
    revert h1
    decide
  · intro h
    have h1 := h artistLookupThrows trackLookupCommaTags (js "Aphex Twin") (js "Xtal")
      (js "music")
    revert h1
    decide

/-- C23, amended. For every artist name, track name, query and every outcome of the two
lookups: when the track lookup throws, the result of `getEnhancedGenres` is exactly
"underground"; otherwise the result is the set `genres` of the code joined by ", ", and
this set contains "underground" and no tag twice.  Read back as the page reads a genre
string, split at the commas and trimmed, the result always contains "underground"; it is
the set itself, and so holds no tag twice, when no tag of the set holds a comma or outer
white space, which is so when the lower-cased tags of the two lookups hold none.  A throw
of the artist lookup is caught inside `getArtistInfo`: the result is then the same as for a
not-ok artist response. -/
theorem getEnhancedGenres_spec (lc : Str → Str) (artistLookup : ArtistLookup)
    (trackLookup : TrackLookup) (artistName trackName searchQuery : Str) :
    (trackLookup artistName trackName = .threw →
        enhancedGenreSet lc artistLookup trackLookup artistName trackName searchQuery = none ∧
        getEnhancedGenres lc artistLookup trackLookup artistName trackName searchQuery =
          js "underground") ∧
      (trackLookup artistName trackName ≠ .threw →
        ∃ tags : List Str,
          enhancedGenreSet lc artistLookup trackLookup artistName trackName searchQuery =
            some tags ∧
          getEnhancedGenres lc artistLookup trackLookup artistName trackName searchQuery =
            joinComma tags ∧
          js "underground" ∈ tags ∧ tags.Nodup ∧
          ((∀ t ∈ tags, 44 ∉ t ∧ trim t = t) →
            genreTags (getEnhancedGenres lc artistLookup trackLookup artistName trackName
              searchQuery) = tags)) ∧
      js "underground" ∈ genreTags
        (getEnhancedGenres lc artistLookup trackLookup artistName trackName searchQuery) ∧
      ((∀ artistInfo, getArtistInfo artistLookup artistName = some artistInfo →
          ∀ t ∈ artistInfo.tags.getD [], 44 ∉ lc t ∧ trim (lc t) = lc t) →
        (∀ body, trackLookup artistName trackName = .ok body →
          ∀ t ∈ body.getD [], 44 ∉ lc t ∧ trim (lc t) = lc t) →
        (genreTags (getEnhancedGenres lc artistLookup trackLookup artistName trackName
          searchQuery)).Nodup) ∧
      (artistLookup artistName = .threw →
        getEnhancedGenres lc artistLookup trackLookup artistName trackName searchQuery =
          getEnhancedGenres lc (fun _ => .notOk) trackLookup artistName trackName
            searchQuery) := by
  have hplainU : 44 ∉ js "underground" ∧ trim (js "underground") = js "underground" := by
    decide
  have hsome : ∀ tags : List Str,
      enhancedGenreSet lc artistLookup trackLookup artistName trackName searchQuery =
        some tags →
      getEnhancedGenres lc artistLookup trackLookup artistName trackName searchQuery =
        joinComma tags := by
    intro tags h
    unfold getEnhancedGenres
    rw [h]
  have hnone : enhancedGenreSet lc artistLookup trackLookup artistName trackName
      searchQuery = none →
      getEnhancedGenres lc artistLookup trackLookup artistName trackName searchQuery =
        js "underground" := by
    intro h
    unfold getEnhancedGenres
    rw [h]
  have hread : ∀ tags : List Str,
      enhancedGenreSet lc artistLookup trackLookup artistName trackName searchQuery =
        some tags → (∀ t ∈ tags, 44 ∉ t ∧ trim t = t) →
      genreTags (getEnhancedGenres lc artistLookup trackLookup artistName trackName
        searchQuery) = tags := by
    intro tags h hplain
    have hmem := (enhancedGenreSet_spec _ _ _ _ _ _ _ h).1
    rw [hsome tags h, genreTags_joinComma tags (List.ne_nil_of_mem hmem),
      flatMap_genreTags_of_plain tags hplain]
  refine ⟨?_, ?_, ?_, ?_, ?_⟩
  · intro ht
    have h : enhancedGenreSet lc artistLookup trackLookup artistName trackName
        searchQuery = none := by
      unfold enhancedGenreSet
      simp only [ht]
    exact ⟨h, hnone h⟩
  · intro ht
    cases hs : enhancedGenreSet lc artistLookup trackLookup artistName trackName
        searchQuery with
    | none =>
      exfalso
      apply ht
      unfold enhancedGenreSet at hs
      cases h : trackLookup artistName trackName with
      | threw => rfl
      | notOk => simp [h] at hs
      | ok body => simp [h] at hs
    | some tags =>
      obtain ⟨h1, h2⟩ := enhancedGenreSet_spec _ _ _ _ _ _ _ hs
      exact ⟨tags, rfl, hsome tags hs, h1, h2, hread tags hs⟩
  · cases hs : enhancedGenreSet lc artistLookup trackLookup artistName trackName
        searchQuery with
    | none =>
      rw [hnone hs, genreTags_of_plain _ hplainU]
      exact List.mem_singleton.mpr rfl
    | some tags =>
      rw [hsome tags hs]
      exact mem_genreTags_joinComma tags _ (enhancedGenreSet_spec _ _ _ _ _ _ _ hs).1 hplainU
  · intro hartist htrack
    cases hs : enhancedGenreSet lc artistLookup trackLookup artistName trackName
        searchQuery with
    | none =>
      rw [hnone hs, genreTags_of_plain _ hplainU]
      exact List.nodup_singleton _
    | some tags =>
      rw [hread tags hs (plain_of_mem_enhancedGenreSet _ _ _ _ _ _ _ hartist htrack hs)]
      exact (enhancedGenreSet_spec _ _ _ _ _ _ _ hs).2
  · intro ha
    unfold getEnhancedGenres enhancedGenreSet getArtistInfo
    simp only [ha]

theorem getEnhancedGenres_spec_witness :
    getEnhancedGenres asciiLower artistLookupThrows trackLookupThrows (js "Aphex Twin")
        (js "Xtal") (js "ambient") = js "underground" ∧
      getEnhancedGenres asciiLower artistLookupThrows (trackLookupTags ["IDM", "idm"])
        (js "Aphex Twin") (js "Xtal") (js "ambient") = js "idm, ambient, electronic, underground" ∧
      (genreTags (getEnhancedGenres asciiLower artistLookupThrows
        (trackLookupTags ["IDM", "idm"]) (js "Aphex Twin") (js "Xtal") (js "ambient"))).Nodup ∧
      getEnhancedGenres asciiLower artistLookupThrows (trackLookupTags ["IDM", "idm"])
        (js "Aphex Twin") (js "Xtal") (js "ambient") =
        getEnhancedGenres asciiLower (fun _ => .notOk) (trackLookupTags ["IDM", "idm"])
          (js "Aphex Twin") (js "Xtal") (js "ambient") :=
  ⟨((getEnhancedGenres_spec asciiLower artistLookupThrows trackLookupThrows (js "Aphex Twin")
      (js "Xtal") (js "ambient")).1 rfl).2,
    by decide,
    (getEnhancedGenres_spec asciiLower artistLookupThrows (trackLookupTags ["IDM", "idm"])
      (js "Aphex Twin") (js "Xtal") (js "ambient")).2.2.2.1
      (fun _ h => Option.noConfusion h)
      (fun body h => by
        cases h
        decide),
    (getEnhancedGenres_spec asciiLower artistLookupThrows (trackLookupTags ["IDM", "idm"])
      (js "Aphex Twin") (js "Xtal") (js "ambient")).2.2.2.2 rfl⟩

end Resonant
